import Mathlib

/-!
Verification of the scraping/linking core of the `scrabbing_wholesale`
repository.  Python services are shallowly embedded: database tables become
lists of rows, `datetime` instants become rationals (seconds), `Decimal`
arithmetic becomes exact rational arithmetic, and fallible service calls
return `Except`/`Option` together with the (possibly unchanged) state.
-/

namespace Scrab

/-- Python truthiness of an optional string: `None` and `""` are falsy. -/
def optStrTruthy : Option String → Bool
  | none => false
  | some s => !(s == "")

/-- Python `x or ""` for an optional string field. -/
def orEmpty : Option String → String
  | none => ""
  | some s => s

/-- Replace the first element satisfying `p` (the row object the ORM mutates). -/
def updateFirst (p : α → Bool) (f : α → α) : List α → List α
  | [] => []
  | x :: xs => if p x then f x :: xs else x :: updateFirst p f xs

/-- Python `str.strip()`: drop leading and trailing whitespace. -/
def pyStrip (s : String) : String :=
  String.mk (((s.data.dropWhile Char.isWhitespace).reverse.dropWhile
    Char.isWhitespace).reverse)

/-- Python `str.lower()` (ASCII case folding; the Arabic script the data
uses has no case). -/
def pyLower (s : String) : String :=
  String.mk (s.data.map Char.toLower)

/-! ## Credential / token manager (`src/scrapers/auth/token_manager.py`) -/

/-- One row of the `credentials` table (`src/models/database.py`).
`token_expires_at` is a timestamp in seconds. -/
structure Credential where
  source_app : String
  username : String
  password_encrypted : String
  access_token : Option String := none
  refresh_token : Option String := none
  token_expires_at : Option ℚ := none
  device_id : Option String := none
  is_active : Bool := true
  deriving Repr, DecidableEq

/-- The symmetric cipher (`cryptography.fernet.Fernet`) is an external
library; it is modelled as an abstract encrypt/decrypt pair. -/
structure Cipher where
  enc : String → String
  dec : String → String

/-- `TokenManager`: `fernet` is `none` exactly when no process-wide
encryption key is configured in settings. -/
structure TokenManager where
  fernet : Option Cipher
  creds : List Credential

/-- `TokenManager._encrypt`. -/
def TokenManager.encrypt (tm : TokenManager) (value : String) : String :=
  match tm.fernet with
  | some f => f.enc value
  | none => value

/-- `TokenManager._decrypt`. -/
def TokenManager.decrypt (tm : TokenManager) (value : String) : String :=
  match tm.fernet with
  | some f => f.dec value
  | none => value

/-- `TokenManager.get_credential`: the single active credential row for the
app (the table has a unique constraint on `source_app`). -/
def get_credential (tm : TokenManager) (source_app : String) : Option Credential :=
  tm.creds.find? (fun c => c.source_app == source_app && c.is_active)

/-- Field update performed by `store_credential` on an existing row. -/
def updCred (username encrypted : String) (device_id : Option String)
    (c : Credential) : Credential :=
  { c with
    username := username
    password_encrypted := encrypted
    device_id := device_id }

/-- `TokenManager.store_credential`: update the existing active row, or
insert a fresh row (whose `is_active` column defaults to true). -/
def store_credential (tm : TokenManager) (source_app username password : String)
    (device_id : Option String) : TokenManager × Credential :=
  let encrypted := tm.encrypt password
  match get_credential tm source_app with
  | some existing =>
      let updated := updCred username encrypted device_id existing
      let creds' :=
        updateFirst (fun c => c.source_app == source_app && c.is_active)
          (fun _ => updated) tm.creds
      ({ tm with creds := creds' }, updated)
  | none =>
      let credential : Credential :=
        { source_app := source_app
          username := username
          password_encrypted := encrypted
          device_id := device_id }
      ({ tm with creds := tm.creds ++ [credential] }, credential)

/-- `TokenManager.get_password`. -/
def get_password (tm : TokenManager) (source_app : String) : Option String :=
  match get_credential tm source_app with
  | none => none
  | some credential => some (tm.decrypt credential.password_encrypted)

/-- `TokenManager.get_access_token` at wall-clock time `now`. -/
def get_access_token (tm : TokenManager) (source_app : String) (now : ℚ) :
    Option String :=
  match get_credential tm source_app with
  | none => none
  | some credential =>
      if !optStrTruthy credential.access_token then none
      else
        match credential.token_expires_at with
        | some t => if t < now then none else credential.access_token
        | none => credential.access_token

/-- `TokenManager.is_token_valid` at wall-clock time `now`; the safety
buffer is 5 minutes = 300 seconds. -/
def is_token_valid (tm : TokenManager) (source_app : String) (now : ℚ) : Bool :=
  match get_credential tm source_app with
  | none => false
  | some credential =>
      if !optStrTruthy credential.access_token then false
      else
        match credential.token_expires_at with
        | none => true
        | some t => decide (now + 300 < t)

/-! ### Lemmas about credential lookup -/

lemma get_credential_eq_some_iff (tm : TokenManager) (source_app : String)
    (hwf : tm.creds.Pairwise (fun a b => a.source_app ≠ b.source_app))
    (c : Credential) :
    get_credential tm source_app = some c ↔
      c ∈ tm.creds ∧ c.is_active = true ∧ c.source_app = source_app := by
  constructor
  · intro h
    have hmem := List.mem_of_find?_eq_some h
    have hp := List.find?_some h
    simp only [Bool.and_eq_true, beq_iff_eq] at hp
    exact ⟨hmem, hp.2, hp.1⟩
  · rintro ⟨hmem, hact, hsrc⟩
    have hsome : (tm.creds.find? (fun c => c.source_app == source_app && c.is_active)).isSome := by
      rw [List.find?_isSome]
      exact ⟨c, hmem, by simp [hsrc, hact]⟩
    obtain ⟨c', hc'⟩ := Option.isSome_iff_exists.mp hsome
    have hmem' := List.mem_of_find?_eq_some hc'
    have hp' := List.find?_some hc'
    simp only [Bool.and_eq_true, beq_iff_eq] at hp'
    have : c' = c := by
      by_contra hne
      exact (List.Pairwise.forall (fun _ _ h => Ne.symm h) hwf hmem' hmem hne)
        (hp'.1.trans hsrc.symm)
    rw [get_credential, hc', this]

lemma find?_updateFirst (p : α → Bool) (f : α → α) (l : List α)
    (hpf : ∀ a, p a = true → p (f a) = true) :
    (updateFirst p f l).find? p = (l.find? p).map f := by
  induction l with
  | nil => simp [updateFirst]
  | cons x xs ih =>
    by_cases hx : p x = true
    · simp [updateFirst, hx, List.find?_cons, hpf x hx]
    · simp only [updateFirst, hx, Bool.false_eq_true, if_false]
      rw [List.find?_cons_of_neg _ (by simp [hx]), List.find?_cons_of_neg _ (by simp [hx]), ih]

/-- After `store_credential`, the active credential row for the app holds the
encrypted secret together with the supplied username and device id. -/
lemma get_credential_store (tm : TokenManager) (source_app username password : String)
    (device_id : Option String) :
    ∃ c, get_credential (store_credential tm source_app username password device_id).1
        source_app = some c ∧
      c.password_encrypted = tm.encrypt password ∧
      c.username = username ∧ c.device_id = device_id := by
  unfold store_credential
  cases hc : get_credential tm source_app with
  | some existing =>
    have hc2 : tm.creds.find? (fun c => c.source_app == source_app && c.is_active)
        = some existing := hc
    have hpe := List.find?_some hc2
    simp only [Bool.and_eq_true, beq_iff_eq] at hpe
    have hpred : ∀ a : Credential,
        (a.source_app == source_app && a.is_active) = true →
        ((updCred username (tm.encrypt password) device_id existing).source_app
            == source_app
          && (updCred username (tm.encrypt password) device_id existing).is_active)
          = true := by
      intro a _
      simpa [updCred] using hpe
    refine ⟨updCred username (tm.encrypt password) device_id existing, ?_, rfl, rfl, rfl⟩
    simp only [get_credential] at hc ⊢
    rw [find?_updateFirst _ _ _ hpred, hc]
    rfl
  | none =>
    refine ⟨{ source_app := source_app
              username := username
              password_encrypted := tm.encrypt password
              device_id := device_id },
      ?_, rfl, rfl, rfl⟩
    simp only [get_credential] at hc ⊢
    rw [List.find?_append, hc]
    simp

/-- **C10**: `store_credential` followed by `get_password` returns the stored
secret exactly, provided the cipher's decrypt is a left inverse of its
encrypt (the `Fernet` contract); when no encryption key is configured,
`_encrypt` and `_decrypt` are both the identity and the secret is persisted
verbatim. -/
theorem credential_roundtrip (tm : TokenManager)
    (source_app username password : String) (device_id : Option String)
    (hcipher : ∀ f, tm.fernet = some f → ∀ x, f.dec (f.enc x) = x) :
    get_password (store_credential tm source_app username password device_id).1
        source_app = some password ∧
    (tm.fernet = none →
      (∀ v, tm.encrypt v = v) ∧ (∀ v, tm.decrypt v = v) ∧
      ∃ c, get_credential (store_credential tm source_app username password
          device_id).1 source_app = some c ∧ c.password_encrypted = password) := by
  obtain ⟨c, hc, hpw, -, -⟩ :=
    get_credential_store tm source_app username password device_id
  have hdec : (store_credential tm source_app username password device_id).1.decrypt
      = tm.decrypt := by
    unfold store_credential
    cases get_credential tm source_app <;> rfl
  constructor
  · rw [get_password, hc]
    simp only [hdec, hpw]
    cases hf : tm.fernet with
    | none => simp [TokenManager.encrypt, TokenManager.decrypt, hf]
    | some f => simp [TokenManager.encrypt, TokenManager.decrypt, hf, hcipher f hf]
  · intro hnone
    refine ⟨fun v => by simp [TokenManager.encrypt, hnone],
      fun v => by simp [TokenManager.decrypt, hnone], c, hc, ?_⟩
    rw [hpw]
    simp [TokenManager.encrypt, hnone]

/-- Witness for C10 at a concrete state: no cipher configured, empty table. -/
theorem credential_roundtrip_witness :
    get_password (store_credential ⟨none, []⟩ "ben_soliman" "user" "s3cret" none).1
        "ben_soliman" = some "s3cret" := by
  exact (credential_roundtrip ⟨none, []⟩ "ben_soliman" "user" "s3cret" none
    (fun f hf => by cases hf)).1

/-- **C7**: `is_token_valid` is true iff an active credential with a (truthy)
access token exists and either no expiry is recorded or the expiry lies more
than the 5-minute buffer in the future; and `get_access_token` returns
nothing whenever the recorded expiry has passed. -/
theorem token_validity_spec (tm : TokenManager) (source_app : String) (now : ℚ)
    (hwf : tm.creds.Pairwise (fun a b => a.source_app ≠ b.source_app)) :
    (is_token_valid tm source_app now = true ↔
      ∃ c ∈ tm.creds, c.is_active = true ∧ c.source_app = source_app ∧
        optStrTruthy c.access_token = true ∧
        (c.token_expires_at = none ∨
          ∃ t, c.token_expires_at = some t ∧ now + 300 < t)) ∧
    (∀ c t, get_credential tm source_app = some c →
      c.token_expires_at = some t → t < now →
      get_access_token tm source_app now = none) := by
  have hvalid : ∀ c, get_credential tm source_app = some c →
      is_token_valid tm source_app now =
        (if !optStrTruthy c.access_token then false
         else
           match c.token_expires_at with
           | none => true
           | some t => decide (now + 300 < t)) := by
    intro c hc
    unfold is_token_valid
    rw [hc]
  constructor
  · cases hc : get_credential tm source_app with
    | none =>
      have hfalse : is_token_valid tm source_app now = false := by
        unfold is_token_valid
        rw [hc]
      rw [hfalse]
      simp only [Bool.false_eq_true, false_iff]
      rintro ⟨c, hmem, hact, hsrc, -⟩
      have : get_credential tm source_app = some c :=
        (get_credential_eq_some_iff tm source_app hwf c).mpr ⟨hmem, hact, hsrc⟩
      rw [hc] at this
      cases this
    | some c =>
      obtain ⟨hmem, hact, hsrc⟩ :=
        (get_credential_eq_some_iff tm source_app hwf c).mp hc
      rw [hvalid c hc]
      constructor
      · intro h
        refine ⟨c, hmem, hact, hsrc, ?_⟩
        by_cases htok : optStrTruthy c.access_token = true
        · refine ⟨htok, ?_⟩
          cases hexp : c.token_expires_at with
          | none => exact Or.inl rfl
          | some t =>
            rw [htok, hexp] at h
            simp only [Bool.not_true, Bool.false_eq_true, if_false] at h
            exact Or.inr ⟨t, rfl, of_decide_eq_true h⟩
        · rw [Bool.not_eq_true] at htok
          rw [htok] at h
          simp at h
      · rintro ⟨c', hmem', hact', hsrc', htok', hexp'⟩
        have hcc : c' = c := by
          have h2 := (get_credential_eq_some_iff tm source_app hwf c').mpr
            ⟨hmem', hact', hsrc'⟩
          rw [hc] at h2
          exact (Option.some_inj.mp h2).symm
        subst hcc
        rw [htok']
        rcases hexp' with hnone | ⟨t, hsome, ht⟩
        · simp [hnone]
        · simp [hsome, ht]
  · intro c t hc hexp ht
    have hred : get_access_token tm source_app now =
        (if !optStrTruthy c.access_token then none
         else
           match c.token_expires_at with
           | some t => if t < now then none else c.access_token
           | none => c.access_token) := by
      unfold get_access_token
      rw [hc]
    rw [hred]
    by_cases htok : optStrTruthy c.access_token = true
    · simp [htok, hexp, ht]
    · rw [Bool.not_eq_true] at htok
      simp [htok]

/-- A concrete credential row used by witnesses. -/
def exCred : Credential :=
  { source_app := "ben_soliman"
    username := "u"
    password_encrypted := "pw"
    access_token := some "tok"
    token_expires_at := some 1000 }

/-- A concrete token-manager state used by witnesses. -/
def exTM : TokenManager := ⟨none, [exCred]⟩

/-- Witness for C7: at time 0 the stored token (expiring at 1000) is valid;
at time 2000 it is expired and `get_access_token` returns nothing. -/
theorem token_validity_witness :
    is_token_valid exTM "ben_soliman" 0 = true ∧
    get_access_token exTM "ben_soliman" 2000 = none := by
  have h0 := token_validity_spec exTM "ben_soliman" 0 (by simp [exTM])
  have h1 := token_validity_spec exTM "ben_soliman" 2000 (by simp [exTM])
  constructor
  · exact h0.1.mpr ⟨exCred, by simp [exTM], rfl, rfl, rfl,
      Or.inr ⟨1000, rfl, by norm_num⟩⟩
  · exact h1.2 exCred 1000 rfl rfl (by norm_num)

/-! ## Scrape job management (`src/services/scraper_service.py`) -/

/-- One row of the `scrape_jobs` table. -/
structure ScrapeJob where
  id : ℤ
  source_app : String
  job_type : String
  status : String
  created_at : Option ℚ := none
  started_at : Option ℚ := none
  completed_at : Option ℚ := none
  products_scraped : ℤ := 0
  products_updated : ℤ := 0
  products_new : ℤ := 0
  errors_count : ℤ := 0
  deriving Repr, DecidableEq

/-- `ScraperService.AVAILABLE_APPS`. -/
def AVAILABLE_APPS : List String :=
  ["ben_soliman", "tager_elsaada", "el_rabie", "gomla_shoaib"]

/-- `ScraperService.cancel_job` at wall-clock time `now`. -/
def cancel_job (jobs : List ScrapeJob) (now : ℚ) (job_id : ℤ) :
    List ScrapeJob × Except String ScrapeJob :=
  match jobs.find? (fun j => j.id == job_id) with
  | none => (jobs, .error "Job not found")
  | some job =>
      if job.status == "pending" || job.status == "running" then
        let j' := { job with status := "cancelled", completed_at := some now }
        (updateFirst (fun j => j.id == job_id) (fun _ => j') jobs, .ok j')
      else
        (jobs, .error ("Cannot cancel job in " ++ job.status ++ " status"))

/-- `ScraperService.trigger_scrape`; `new_id` stands for the primary key the
database assigns to the inserted row. -/
def trigger_scrape (jobs : List ScrapeJob) (now : ℚ) (new_id : ℤ)
    (source_app job_type : String) : List ScrapeJob × Except String ScrapeJob :=
  if !AVAILABLE_APPS.contains source_app then
    (jobs, .error ("Unknown app: " ++ source_app))
  else
    match jobs.find? (fun j => j.source_app == source_app &&
        (j.status == "pending" || j.status == "running")) with
    | some _ => (jobs, .error ("A job is already running for " ++ source_app))
    | none =>
        let job : ScrapeJob :=
          { id := new_id
            source_app := source_app
            job_type := job_type
            status := "pending"
            created_at := some now }
        (jobs ++ [job], .ok job)

/-- `ScraperService.update_job_progress` (the empty string is falsy for the
`if status:` test, like `None`). -/
def update_job_progress (jobs : List ScrapeJob) (now : ℚ) (job_id : ℤ)
    (products_scraped products_updated products_new errors_count : ℤ)
    (status : Option String) : List ScrapeJob × Option ScrapeJob :=
  match jobs.find? (fun j => j.id == job_id) with
  | none => (jobs, none)
  | some job =>
      let j1 := { job with
        products_scraped := products_scraped
        products_updated := products_updated
        products_new := products_new
        errors_count := errors_count }
      let j2 :=
        match status with
        | none => j1
        | some s =>
            if s == "" then j1
            else
              let j' := { j1 with status := s }
              if s == "running" && !j1.started_at.isSome then
                { j' with started_at := some now }
              else if s == "completed" || s == "failed" || s == "cancelled" then
                { j' with completed_at := some now }
              else j'
      (updateFirst (fun j => j.id == job_id) (fun _ => j2) jobs, some j2)

/-- **C5 counterexample**: a job already in the terminal state `completed` is
moved back to `running` by `update_job_progress`, so status transitions are
not monotonic across all operations. -/
theorem job_terminal_counterexample :
    (⟨1, "ben_soliman", "full", "completed", none, none, none, 0, 0, 0, 0⟩ :
        ScrapeJob).status = "completed" ∧
    ((update_job_progress
        [⟨1, "ben_soliman", "full", "completed", none, none, none, 0, 0, 0, 0⟩]
        5 1 0 0 0 0 (some "running")).1.map (fun j => j.status)) = ["running"] :=
  ⟨rfl, rfl⟩

/-- **C5 (amended)**: `cancel_job` itself is monotonic — it succeeds only on a
`pending`/`running` job, setting the terminal `cancelled` state and a
completion timestamp, and otherwise rejects without mutating the table
(`update_job_progress`, by contrast, applies any caller-supplied status, as
the counterexample shows). -/
theorem cancel_job_spec (jobs : List ScrapeJob) (now : ℚ) (job_id : ℤ) :
    (∀ job, jobs.find? (fun j => j.id == job_id) = some job →
      ((job.status = "pending" ∨ job.status = "running") →
        ∃ j', cancel_job jobs now job_id
            = (updateFirst (fun j => j.id == job_id) (fun _ => j') jobs, .ok j') ∧
          j'.status = "cancelled" ∧ j'.completed_at = some now) ∧
      ((job.status ≠ "pending" ∧ job.status ≠ "running") →
        cancel_job jobs now job_id
          = (jobs, .error ("Cannot cancel job in " ++ job.status ++ " status")))) ∧
    (jobs.find? (fun j => j.id == job_id) = none →
      cancel_job jobs now job_id = (jobs, .error "Job not found")) := by
  constructor
  · intro job hfind
    have hred : cancel_job jobs now job_id =
        (if job.status == "pending" || job.status == "running" then
          (updateFirst (fun j => j.id == job_id)
            (fun _ => { job with status := "cancelled", completed_at := some now })
            jobs,
            .ok { job with status := "cancelled", completed_at := some now })
        else
          (jobs, .error ("Cannot cancel job in " ++ job.status ++ " status"))) := by
      unfold cancel_job
      rw [hfind]
    constructor
    · intro hstat
      refine ⟨{ job with status := "cancelled", completed_at := some now },
        ?_, rfl, rfl⟩
      rw [hred]
      rcases hstat with h | h <;> simp [h]
    · rintro ⟨h1, h2⟩
      rw [hred]
      simp [h1, h2]
  · intro hfind
    unfold cancel_job
    rw [hfind]

/-- Witness for C5's amended theorem: a running job gets cancelled. -/
theorem cancel_job_witness :
    ((cancel_job [⟨1, "ben_soliman", "full", "running", none, some 2, none,
        0, 0, 0, 0⟩] 7 1).1.map (fun j => (j.status, j.completed_at)))
      = [("cancelled", some 7)] := by
  obtain ⟨j', heq, hstat, hdone⟩ :=
    ((cancel_job_spec [⟨1, "ben_soliman", "full", "running", none, some 2, none,
        0, 0, 0, 0⟩] 7 1).1 _ rfl).1 (Or.inr rfl)
  rw [heq]
  simp [updateFirst, hstat, hdone]

/-- **C6**: for a known source app, `trigger_scrape` is rejected without
creating a row whenever a `pending`/`running` job for the source exists, and
otherwise appends exactly one new job row with status `pending`. -/
theorem trigger_scrape_spec (jobs : List ScrapeJob) (now : ℚ) (new_id : ℤ)
    (source_app job_type : String) (happ : source_app ∈ AVAILABLE_APPS) :
    ((∃ j ∈ jobs, j.source_app = source_app ∧
        (j.status = "pending" ∨ j.status = "running")) →
      trigger_scrape jobs now new_id source_app job_type
        = (jobs, .error ("A job is already running for " ++ source_app))) ∧
    ((¬ ∃ j ∈ jobs, j.source_app = source_app ∧
        (j.status = "pending" ∨ j.status = "running")) →
      ∃ job, trigger_scrape jobs now new_id source_app job_type
          = (jobs ++ [job], .ok job) ∧ job.status = "pending") := by
  have hcont : AVAILABLE_APPS.contains source_app = true := by
    simpa using happ
  constructor
  · rintro ⟨j, hmem, hsrc, hstat⟩
    have hsome : (jobs.find? (fun j => j.source_app == source_app &&
        (j.status == "pending" || j.status == "running"))).isSome := by
      rw [List.find?_isSome]
      refine ⟨j, hmem, ?_⟩
      rcases hstat with h | h <;> simp [hsrc, h]
    obtain ⟨j', hj'⟩ := Option.isSome_iff_exists.mp hsome
    unfold trigger_scrape
    rw [hcont, hj']
    rfl
  · intro hnone
    have hfind : jobs.find? (fun j => j.source_app == source_app &&
        (j.status == "pending" || j.status == "running")) = none := by
      cases hf : jobs.find? (fun j => j.source_app == source_app &&
          (j.status == "pending" || j.status == "running")) with
      | none => rfl
      | some j =>
        exfalso
        apply hnone
        have hmem := List.mem_of_find?_eq_some hf
        have hp := List.find?_some hf
        simp only [Bool.and_eq_true, Bool.or_eq_true, beq_iff_eq] at hp
        exact ⟨j, hmem, hp.1, hp.2⟩
    unfold trigger_scrape
    rw [hcont, hfind]
    exact ⟨_, rfl, rfl⟩

/-- Witness for C6 on the empty job table. -/
theorem trigger_scrape_witness :
    ((trigger_scrape [] 0 1 "ben_soliman" "full").1.map (fun j => j.status))
      = ["pending"] := by
  obtain ⟨job, heq, hstat⟩ :=
    (trigger_scrape_spec [] 0 1 "ben_soliman" "full"
      (by simp [AVAILABLE_APPS])).2 (by simp)
  rw [heq]
  simp [hstat]

/-! ## Price history (`src/database/repositories/price_repo.py` and
`BaseScraper.process_product` in `src/scrapers/base.py`) -/

/-- One row of the `price_records` table.  The store is kept in
`recorded_at` order, so list position encodes recency. -/
structure PriceRecord where
  product_id : ℤ
  unit_id : Option ℤ := none
  price : ℚ
  original_price : Option ℚ := none
  discount_percentage : Option ℚ := none
  is_available : Bool := true
  deriving Repr, DecidableEq

/-- `PriceRepository.get_latest_for_product`: most recent record for the
product — note, regardless of `unit_id`. -/
def get_latest_for_product (store : List PriceRecord) (product_id : ℤ) :
    Option PriceRecord :=
  (store.filter (fun r => r.product_id == product_id)).getLast?

/-- `PriceRepository.should_record_price`. -/
def should_record_price (store : List PriceRecord) (product_id : ℤ)
    (new_price : ℚ) (is_available : Bool) : Bool :=
  match get_latest_for_product store product_id with
  | none => true
  | some latest =>
      latest.price != new_price || latest.is_available != is_available

/-- Round to the nearest integer, ties to even (`decimal.ROUND_HALF_EVEN`,
the default rounding of Python `Decimal.quantize`). -/
def roundHalfEven (x : ℚ) : ℤ :=
  let f := ⌊x⌋
  if x - f < 1/2 then f
  else if (1 : ℚ)/2 < x - f then f + 1
  else if f % 2 = 0 then f else f + 1

/-- `Decimal.quantize(Decimal("0.01"))`: round to 2 decimal places. -/
def quantize2 (x : ℚ) : ℚ := (roundHalfEven (x * 100) : ℚ) / 100

/-- The price-recording part of `BaseScraper.process_product` (after
`parse_product`/`upsert` produced the product row `product_id`): the
change predicate gates the append, and the discount percentage is derived
when a strictly larger (truthy, hence nonzero) original price is present.
Returns the new store and the created record, if any. -/
def process_product (store : List PriceRecord) (product_id : ℤ) (price : ℚ)
    (original_price : Option ℚ) (is_available : Bool) :
    List PriceRecord × Option PriceRecord :=
  if should_record_price store product_id price is_available then
    let discount_pct : Option ℚ :=
      match original_price with
      | none => none
      | some o =>
          if o ≠ 0 ∧ price < o then some (quantize2 ((o - price) / o * 100))
          else none
    let record : PriceRecord :=
      { product_id := product_id
        price := price
        original_price := original_price
        discount_percentage := discount_pct
        is_available := is_available }
    (store ++ [record], some record)
  else (store, none)

/-- Modelled from the spec: the price-change predicate as claim C2 states
it, keyed on the (product, unit) pair.  A base-scraper observation carries
unit `none`.  Compare with `should_record_price`, which ignores the unit. -/
def should_record_price_claim (store : List PriceRecord) (product_id : ℤ)
    (unit_id : Option ℤ) (new_price : ℚ) (is_available : Bool) : Bool :=
  match (store.filter (fun r =>
      r.product_id == product_id && r.unit_id == unit_id)).getLast? with
  | none => true
  | some latest =>
      latest.price != new_price || latest.is_available != is_available

/-- A store holding a product-level record and a later unit-level record for
the same product (unit-level records are written by
`scripts/scrape_tager_elsaada.py`). -/
def storeCex : List PriceRecord :=
  [⟨1, none, 10, none, none, true⟩, ⟨1, some 7, 20, none, none, true⟩]

/-- **C2 counterexample**: the observation (product 1, unit none, price 10,
available) matches the most recent record for its (product, unit) pair, so
the claim says no record is appended — but the code compares against the
most recent record for the product regardless of unit (price 20) and does
append one. -/
theorem price_history_counterexample :
    (process_product storeCex 1 10 none true).2.isSome = true ∧
    should_record_price_claim storeCex 1 none 10 true = false :=
  ⟨rfl, rfl⟩

lemma should_record_price_iff (store : List PriceRecord) (product_id : ℤ)
    (price : ℚ) (is_available : Bool) :
    should_record_price store product_id price is_available = true ↔
      (get_latest_for_product store product_id = none ∨
        ∃ r, get_latest_for_product store product_id = some r ∧
          (r.price ≠ price ∨ r.is_available ≠ is_available)) := by
  unfold should_record_price
  cases h : get_latest_for_product store product_id with
  | none => simp
  | some r =>
    simp only [Bool.or_eq_true, bne_iff_ne, ne_eq, Option.some.injEq]
    constructor
    · intro hd
      exact Or.inr ⟨r, rfl, by tauto⟩
    · rintro (hn | ⟨r', hr', hd⟩)
      · cases hn
      · subst hr'
        tauto

/-- **C2 (amended)**: a record is appended on an observation iff the price or
availability differs from the most recent record **for the product,
regardless of unit** (always appended when the product has no record at
all); nothing else about the store changes. -/
theorem price_append_iff (store : List PriceRecord) (product_id : ℤ)
    (price : ℚ) (original_price : Option ℚ) (is_available : Bool) :
    ((process_product store product_id price original_price
        is_available).2.isSome = true ↔
      (get_latest_for_product store product_id = none ∨
        ∃ r, get_latest_for_product store product_id = some r ∧
          (r.price ≠ price ∨ r.is_available ≠ is_available))) ∧
    (∀ rec, (process_product store product_id price original_price
        is_available).2 = some rec →
      (process_product store product_id price original_price
        is_available).1 = store ++ [rec] ∧
      rec.price = price ∧ rec.product_id = product_id ∧
      rec.is_available = is_available) ∧
    ((process_product store product_id price original_price
        is_available).2 = none →
      (process_product store product_id price original_price
        is_available).1 = store) := by
  rw [← should_record_price_iff store product_id price is_available]
  unfold process_product
  by_cases h : should_record_price store product_id price is_available = true
  · rw [if_pos h]
    refine ⟨by simpa using h, ?_, by simp⟩
    intro rec hrec
    simp only [Option.some.injEq] at hrec
    subst hrec
    exact ⟨rfl, rfl, rfl, rfl⟩
  · rw [if_neg h]
    simp only [Option.isSome_none, Bool.false_eq_true, false_iff]
    refine ⟨by simpa using h, by simp, by trivial⟩

/-- Witness for C2's amended theorem: on the empty store a record is always
appended. -/
theorem price_append_witness :
    (process_product [] 1 5 none true).1.length = 1 := by
  have h := price_append_iff [] 1 5 none true
  obtain ⟨rec, hrec⟩ :=
    Option.isSome_iff_exists.mp (h.1.mpr (Or.inl rfl))
  rw [(h.2.1 rec hrec).1]
  rfl

/-- **C9**: when an appended record has an original price strictly above the
price, its discount percentage is `round((1 - price/original) * 100, 2)`;
otherwise the discount is null.  (`0 ≤ price` rules out the degenerate
division `original = 0 > price`.) -/
theorem discount_derivation (store : List PriceRecord) (product_id : ℤ)
    (price : ℚ) (original_price : Option ℚ) (is_available : Bool)
    (hprice : 0 ≤ price) (rec : PriceRecord)
    (hrec : (process_product store product_id price original_price
      is_available).2 = some rec) :
    (∀ o, original_price = some o → price < o →
      rec.discount_percentage = some (quantize2 ((1 - price / o) * 100))) ∧
    ((original_price = none ∨ ∃ o, original_price = some o ∧ o ≤ price) →
      rec.discount_percentage = none) := by
  unfold process_product at hrec
  by_cases h : should_record_price store product_id price is_available = true
  · rw [if_pos h] at hrec
    simp only [Option.some.injEq] at hrec
    subst hrec
    constructor
    · intro o ho hlt
      subst ho
      have ho0 : o ≠ 0 := ne_of_gt (lt_of_le_of_lt hprice hlt)
      simp only [ho0, hlt, ne_eq, not_false_eq_true, and_self, if_true,
        Option.some.injEq]
      congr 1
      field_simp
    · rintro (hn | ⟨o, ho, hle⟩)
      · subst hn
        rfl
      · subst ho
        simp [not_lt_of_le hle]
  · rw [if_neg h] at hrec
    cases hrec

/-- Witness for C9: price 50 against original 100 yields a 50% discount. -/
theorem discount_witness :
    (process_product [] 1 50 (some 100) true).2.map
      (fun r => r.discount_percentage) = some (some 50) := by
  have hrec : (process_product [] 1 50 (some 100) true).2
      = some ⟨1, none, 50, some 100,
          some (quantize2 ((100 - 50) / 100 * 100)), true⟩ := rfl
  have h := (discount_derivation [] 1 50 (some 100) true (by norm_num) _
    hrec).1 100 rfl (by norm_num)
  rw [hrec, Option.map_some', h]
  norm_num [quantize2, roundHalfEven]

/-! ## Token-bucket rate limiter (`src/utils/rate_limiter.py`)

Wall-clock (`time.monotonic`) readings are rationals; `asyncio.sleep(w)`
advances the clock by exactly `w` (the claim's lower bound only gets
stronger if sleeps overshoot). -/

/-- Limiter state: available tokens and the `last_update` clock reading. -/
structure RLState where
  tokens : ℚ
  last : ℚ
  deriving Repr, DecidableEq

/-- `RateLimiter._add_tokens` at clock reading `now`. -/
def add_tokens (rate cap : ℚ) (s : RLState) (now : ℚ) : RLState :=
  ⟨min cap (s.tokens + (now - s.last) * rate), now⟩

/-- `RateLimiter._wait_for_tokens`: the retry loop, with explicit fuel.
Returns the refilled state and the clock reading when `n` tokens are
available. -/
def wait_for_tokens (rate cap n : ℚ) : ℕ → RLState → ℚ → Option (RLState × ℚ)
  | 0, _, _ => none
  | fuel + 1, s, now =>
      let s1 := add_tokens rate cap s now
      if n ≤ s1.tokens then some (s1, now)
      else wait_for_tokens rate cap n fuel s1 (now + (n - s1.tokens) / rate)

/-- `RateLimiter.acquire(n)` started at clock reading `now`: wait for `n`
tokens, then debit them.  Two loop iterations always suffice when `n` fits
the burst size (`acquire_spec`), so fuel 2 is enough. -/
def acquire (rate cap : ℚ) (s : RLState) (now n : ℚ) : Option (RLState × ℚ) :=
  (wait_for_tokens rate cap n 2 s now).map
    (fun p => ({ p.1 with tokens := p.1.tokens - n }, p.2))

lemma wait_for_tokens_succ (rate cap n : ℚ) (fuel : ℕ) (s : RLState) (now : ℚ) :
    wait_for_tokens rate cap n (fuel + 1) s now =
      if n ≤ (add_tokens rate cap s now).tokens
      then some (add_tokens rate cap s now, now)
      else wait_for_tokens rate cap n fuel (add_tokens rate cap s now)
        (now + (n - (add_tokens rate cap s now).tokens) / rate) := rfl

lemma acquire_spec (rate cap : ℚ) (s : RLState) (now n : ℚ)
    (hr : 0 < rate) (hn : 0 < n) (hncap : n ≤ cap)
    (hts : s.tokens ≤ cap) (hlast : s.last ≤ now) :
    ∃ s' fin, acquire rate cap s now n = some (s', fin) ∧
      now ≤ fin ∧ s'.last = fin ∧ 0 ≤ s'.tokens ∧ s'.tokens ≤ cap ∧
      s'.tokens + n ≤ s.tokens + (fin - s.last) * rate ∧
      s'.tokens + n ≤ cap + (fin - now) * rate := by
  have h1 : (add_tokens rate cap s now).tokens ≤ cap := min_le_left _ _
  have h2 : (add_tokens rate cap s now).tokens
      ≤ s.tokens + (now - s.last) * rate := min_le_right _ _
  by_cases h : n ≤ (add_tokens rate cap s now).tokens
  · have hw : wait_for_tokens rate cap n 2 s now
        = some (add_tokens rate cap s now, now) := by
      rw [show (2 : ℕ) = 1 + 1 from rfl, wait_for_tokens_succ, if_pos h]
    refine ⟨⟨(add_tokens rate cap s now).tokens - n, now⟩, now, ?_, le_refl _,
      rfl, ?_, ?_, ?_, ?_⟩
    · rw [acquire, hw]
      rfl
    · show 0 ≤ (add_tokens rate cap s now).tokens - n
      linarith
    · show (add_tokens rate cap s now).tokens - n ≤ cap
      linarith
    · show (add_tokens rate cap s now).tokens - n + n
        ≤ s.tokens + (now - s.last) * rate
      linarith
    · show (add_tokens rate cap s now).tokens - n + n ≤ cap + (now - now) * rate
      have : (now - now) * rate = 0 := by ring
      linarith
  · push_neg at h
    have hwr : (n - (add_tokens rate cap s now).tokens) / rate * rate
        = n - (add_tokens rate cap s now).tokens :=
      div_mul_cancel₀ _ (ne_of_gt hr)
    have hwpos : 0 < (n - (add_tokens rate cap s now).tokens) / rate :=
      div_pos (by linarith) hr
    have htok2 : (add_tokens rate cap (add_tokens rate cap s now)
        (now + (n - (add_tokens rate cap s now).tokens) / rate)).tokens = n := by
      show min cap ((add_tokens rate cap s now).tokens
        + (now + (n - (add_tokens rate cap s now).tokens) / rate
            - (add_tokens rate cap s now).last) * rate) = n
      have hl1 : (add_tokens rate cap s now).last = now := rfl
      rw [hl1]
      have he : (add_tokens rate cap s now).tokens
          + (now + (n - (add_tokens rate cap s now).tokens) / rate - now) * rate
          = n := by
        have : (now + (n - (add_tokens rate cap s now).tokens) / rate - now)
            = (n - (add_tokens rate cap s now).tokens) / rate := by ring
        rw [this, hwr]
        ring
      rw [he]
      exact min_eq_right hncap
    have hrun : wait_for_tokens rate cap n 2 s now
        = some (add_tokens rate cap (add_tokens rate cap s now)
            (now + (n - (add_tokens rate cap s now).tokens) / rate),
          now + (n - (add_tokens rate cap s now).tokens) / rate) := by
      rw [show (2 : ℕ) = 1 + 1 from rfl, wait_for_tokens_succ,
        if_neg (not_le.mpr h), show (1 : ℕ) = 0 + 1 from rfl,
        wait_for_tokens_succ, if_pos (le_of_eq htok2.symm)]
    refine ⟨⟨(add_tokens rate cap (add_tokens rate cap s now)
        (now + (n - (add_tokens rate cap s now).tokens) / rate)).tokens - n,
        now + (n - (add_tokens rate cap s now).tokens) / rate⟩,
      now + (n - (add_tokens rate cap s now).tokens) / rate,
      ?_, by linarith, rfl, ?_, ?_, ?_, ?_⟩
    · rw [acquire, hrun]
      rfl
    · show 0 ≤ (add_tokens rate cap (add_tokens rate cap s now)
        (now + (n - (add_tokens rate cap s now).tokens) / rate)).tokens - n
      rw [htok2]
      linarith
    · show (add_tokens rate cap (add_tokens rate cap s now)
        (now + (n - (add_tokens rate cap s now).tokens) / rate)).tokens - n ≤ cap
      rw [htok2]
      linarith
    · show (add_tokens rate cap (add_tokens rate cap s now)
          (now + (n - (add_tokens rate cap s now).tokens) / rate)).tokens - n + n
        ≤ s.tokens + (now + (n - (add_tokens rate cap s now).tokens) / rate
            - s.last) * rate
      rw [htok2]
      have hexp : (now + (n - (add_tokens rate cap s now).tokens) / rate
          - s.last) * rate
          = (now - s.last) * rate
            + (n - (add_tokens rate cap s now).tokens) / rate * rate := by ring
      rw [hexp, hwr]
      linarith
    · show (add_tokens rate cap (add_tokens rate cap s now)
          (now + (n - (add_tokens rate cap s now).tokens) / rate)).tokens - n + n
        ≤ cap + (now + (n - (add_tokens rate cap s now).tokens) / rate
            - now) * rate
      rw [htok2]
      have hexp : (now + (n - (add_tokens rate cap s now).tokens) / rate
          - now) * rate
          = (n - (add_tokens rate cap s now).tokens) / rate * rate := by ring
      rw [hexp, hwr]
      linarith

/-- `N` sequential `acquire(1)` calls: the `i`-th call starts `gaps[i]`
seconds (≥ 0) after the previous call completed. -/
def seq_acquire (rate cap : ℚ) : List ℚ → RLState → ℚ → Option (RLState × ℚ)
  | [], s, t => some (s, t)
  | g :: gs, s, t =>
      match acquire rate cap s (t + g) 1 with
      | none => none
      | some p => seq_acquire rate cap gs p.1 p.2

lemma wait_for_tokens_2 (rate cap n : ℚ) (s : RLState) (now : ℚ) :
    wait_for_tokens rate cap n 2 s now =
      (let s1 := add_tokens rate cap s now
       if n ≤ s1.tokens then some (s1, now)
       else
         let s2 := add_tokens rate cap s1 (now + (n - s1.tokens) / rate)
         if n ≤ s2.tokens then some (s2, now + (n - s1.tokens) / rate)
         else none) := rfl

lemma seq_acquire_nil (rate cap : ℚ) (s : RLState) (t : ℚ) :
    seq_acquire rate cap [] s t = some (s, t) := rfl

lemma seq_acquire_cons (rate cap g : ℚ) (gs : List ℚ) (s : RLState) (t : ℚ) :
    seq_acquire rate cap (g :: gs) s t =
      match acquire rate cap s (t + g) 1 with
      | none => none
      | some p => seq_acquire rate cap gs p.1 p.2 := rfl

lemma seq_acquire_spec (rate cap : ℚ) (hr : 0 < rate) (hcap : 1 ≤ cap) :
    ∀ gaps : List ℚ, (∀ g ∈ gaps, 0 ≤ g) → ∀ s t, 0 ≤ s.tokens →
      s.tokens ≤ cap → s.last ≤ t →
      ∀ s' fin, seq_acquire rate cap gaps s t = some (s', fin) →
        t ≤ fin ∧ 0 ≤ s'.tokens ∧ s'.tokens ≤ cap ∧
        s'.tokens + gaps.length ≤ s.tokens + (fin - s.last) * rate := by
  intro gaps
  induction gaps with
  | nil =>
    intro _ s t h0 hc hl s' fin hrun
    rw [seq_acquire_nil] at hrun
    simp only [Option.some.injEq, Prod.mk.injEq] at hrun
    obtain ⟨hs, ht⟩ := hrun
    subst hs
    subst ht
    have : 0 ≤ (t - s.last) * rate :=
      mul_nonneg (by linarith) (le_of_lt hr)
    exact ⟨le_refl _, h0, hc, by simpa using this⟩
  | cons g gs ih =>
    intro hg s t h0 hc hl s' fin hrun
    have hg0 : 0 ≤ g := hg g (List.mem_cons_self g gs)
    obtain ⟨s1, fin1, hacq, hle1, hlast1, h01, hc1, hbud, -⟩ :=
      acquire_spec rate cap s (t + g) 1 hr one_pos hcap hc (by linarith)
    rw [seq_acquire_cons] at hrun
    simp only [hacq] at hrun
    obtain ⟨hfin, h0', hc', hbud'⟩ :=
      ih (fun g' hg' => hg g' (List.mem_cons_of_mem _ hg'))
        s1 fin1 h01 hc1 (le_of_eq hlast1) s' fin hrun
    have hexp : (fin - s.last) * rate
        = (fin - fin1) * rate + (fin1 - s.last) * rate := by ring
    refine ⟨by linarith, h0', hc', ?_⟩
    rw [hlast1] at hbud'
    simp only [List.length_cons]
    push_cast
    linarith

/-- **C8**: starting from a fresh limiter (full bucket of `cap` tokens at
time `t0`), after any sequence of `N` sequential single-token acquisitions
(the first issued `g1 ≥ 0` after creation, each later one issued a
nonnegative delay after the previous completed) the stored token count is
within `[0, cap]`, and the last acquisition cannot complete earlier than
`(N - cap) / rate` seconds after the first call was issued. -/
theorem rate_limiter_spec (rate cap g1 : ℚ) (gaps : List ℚ) (t0 : ℚ)
    (s' : RLState) (fin : ℚ)
    (hr : 0 < rate) (hcap : 1 ≤ cap) (hg1 : 0 ≤ g1)
    (hgaps : ∀ g ∈ gaps, 0 ≤ g)
    (hrun : seq_acquire rate cap (g1 :: gaps) ⟨cap, t0⟩ t0 = some (s', fin)) :
    0 ≤ s'.tokens ∧ s'.tokens ≤ cap ∧
    (((g1 :: gaps).length : ℚ) - cap) / rate ≤ fin - (t0 + g1) := by
  obtain ⟨s1, fin1, hacq, hle1, hlast1, h01, hc1, -, hbud2⟩ :=
    acquire_spec rate cap ⟨cap, t0⟩ (t0 + g1) 1 hr one_pos hcap (le_refl _)
      (by show t0 ≤ t0 + g1; linarith)
  rw [seq_acquire_cons] at hrun
  simp only [hacq] at hrun
  obtain ⟨hfin, h0', hc', hbud'⟩ :=
    seq_acquire_spec rate cap hr hcap gaps hgaps s1 fin1 h01 hc1
      (le_of_eq hlast1) s' fin hrun
  refine ⟨h0', hc', ?_⟩
  rw [div_le_iff hr]
  rw [hlast1] at hbud'
  have hexp : (fin - (t0 + g1)) * rate
      = (fin - fin1) * rate + (fin1 - (t0 + g1)) * rate := by ring
  simp only [List.length_cons]
  push_cast
  linarith

/-- Witness for C8 at the spec's scenario: rate 1.5 req/s, burst 3, ten
back-to-back acquisitions finish at `t = 14/3 ≈ 4.67s`, never earlier than
`(10 - 3) / 1.5` seconds after the first call. -/
theorem rate_limiter_witness :
    (0 : ℚ) ≤ (⟨0, 14/3⟩ : RLState).tokens ∧
    (⟨0, 14/3⟩ : RLState).tokens ≤ 3 ∧
    (((((0 : ℚ) :: [0, 0, 0, 0, 0, 0, 0, 0, 0]).length : ℕ) : ℚ) - 3) / (3 / 2)
      ≤ (14 : ℚ) / 3 - (0 + 0) := by
  have hgaps : ∀ g ∈ ([0, 0, 0, 0, 0, 0, 0, 0, 0] : List ℚ), (0 : ℚ) ≤ g := by
    intro g hg
    have hg0 : g = 0 := by simpa using hg
    simp [hg0]
  have hrun : seq_acquire (3/2) 3 ([0, 0, 0, 0, 0, 0, 0, 0, 0, 0] : List ℚ)
      ⟨3, 0⟩ 0 = some (⟨0, 14/3⟩, 14/3) := by
    norm_num [seq_acquire_cons, seq_acquire_nil, acquire, wait_for_tokens_2,
      add_tokens, min_def]
  exact rate_limiter_spec (3/2) 3 0 [0, 0, 0, 0, 0, 0, 0, 0, 0] 0
    ⟨0, 14/3⟩ (14/3) (by norm_num) (by norm_num) le_rfl hgaps hrun

/-! ## Product linking (`src/services/linking_service.py`) -/

/-- A `brands` row (only the fields the linking service reads). -/
structure Brand where
  name : Option String := none
  name_ar : Option String := none
  deriving Repr, DecidableEq

/-- A `categories` row (only the fields the linking service reads). -/
structure Category where
  name : Option String := none
  deriving Repr, DecidableEq

/-- A `products` row.  `brand` may hold a plain string or a `Brand` object
(`_extract_brand` checks `isinstance(product.brand, str)`). -/
structure Product where
  id : ℤ
  source_app : String
  name : Option String := none
  name_ar : Option String := none
  sku : Option String := none
  barcode : Option String := none
  brand : Option (String ⊕ Brand) := none
  category : Option Category := none
  is_active : Bool := true
  deriving Repr, DecidableEq

/-- A `product_links` row. -/
structure ProductLink where
  product_a_id : ℤ
  product_b_id : ℤ
  unit_a_id : Option ℤ := none
  unit_b_id : Option ℤ := none
  link_type : String := "manual"
  confidence_score : ℚ := 1
  match_reason : String := ""
  verified_by : Option String := none
  verified_at : Option ℚ := none
  is_active : Bool := true
  deriving Repr, DecidableEq

/-- The slice of the database the linking service touches. -/
structure DB where
  products : List Product
  links : List ProductLink
  deriving Repr, DecidableEq

/-- `LinkingService._get_existing_link`: any row for the canonical pair,
active or not. -/
def get_existing_link (links : List ProductLink) (product_a_id product_b_id : ℤ) :
    Option ProductLink :=
  links.find? (fun l => l.product_a_id == min product_a_id product_b_id
    && l.product_b_id == max product_a_id product_b_id)

/-- `LinkingService.create_manual_link` at time `now`.  Errors leave the
database unchanged (the session is only mutated after all checks pass). -/
def create_manual_link (db : DB) (now : ℚ) (product_a_id product_b_id : ℤ)
    (verified_by : Option String) : DB × Except String ProductLink :=
  let min_id := min product_a_id product_b_id
  let max_id := max product_a_id product_b_id
  match db.products.find? (fun p => p.id == min_id),
        db.products.find? (fun p => p.id == max_id) with
  | some product_a, some product_b =>
      if product_a.source_app == product_b.source_app then
        (db, .error "Cannot link products from the same app")
      else if (get_existing_link db.links min_id max_id).isSome then
        (db, .error "Link already exists between these products")
      else
        let link : ProductLink :=
          { product_a_id := min_id
            product_b_id := max_id
            link_type := "manual"
            confidence_score := 1
            match_reason := "Manually linked by user"
            verified_by := verified_by
            verified_at := if optStrTruthy verified_by then some now else none }
        ({ db with links := db.links ++ [link] }, .ok link)
  | _, _ => (db, .error "One or both products not found")

/-- **C4**: a successful `create_manual_link(a, b)` stores the pair in
canonical `(min, max)` order, and a later `create_manual_link(b, a)` is
rejected as a duplicate without touching the link table. -/
theorem manual_link_canonical (db : DB) (now now' : ℚ) (a b : ℤ)
    (vb vb' : Option String) (db1 : DB) (link : ProductLink)
    (hok : create_manual_link db now a b vb = (db1, .ok link)) :
    link.product_a_id = min a b ∧ link.product_b_id = max a b ∧
    link.product_a_id ≤ link.product_b_id ∧
    db1.links = db.links ++ [link] ∧
    create_manual_link db1 now' b a vb'
      = (db1, .error "Link already exists between these products") := by
  simp only [create_manual_link] at hok
  cases hfa : db.products.find? (fun p => p.id == min a b) with
  | none =>
    cases hfb : db.products.find? (fun p => p.id == max a b) <;>
      simp [hfa, hfb] at hok
  | some pa =>
    cases hfb : db.products.find? (fun p => p.id == max a b) with
    | none =>
      simp [hfa, hfb] at hok
    | some pb =>
      simp only [hfa, hfb] at hok
      by_cases happ : (pa.source_app == pb.source_app) = true
      · rw [if_pos happ] at hok
        simp at hok
      · rw [if_neg happ] at hok
        by_cases hex : (get_existing_link db.links (min a b) (max a b)).isSome = true
        · rw [if_pos hex] at hok
          simp at hok
        · rw [if_neg hex] at hok
          simp only [Prod.mk.injEq, Except.ok.injEq] at hok
          obtain ⟨hdb1, hlink⟩ := hok
          have h1 : link.product_a_id = min a b := by rw [← hlink]
          have h2 : link.product_b_id = max a b := by rw [← hlink]
          have hpr : db1.products = db.products := by rw [← hdb1]
          have hlinks : db1.links = db.links ++ [link] := by
            rw [← hdb1]
            show db.links ++ _ = db.links ++ [link]
            rw [hlink]
          refine ⟨h1, h2, by rw [h1, h2]; exact min_le_max, hlinks, ?_⟩
          have hfa1 : db1.products.find? (fun p => p.id == min a b) = some pa := by
            rw [hpr]
            exact hfa
          have hfb1 : db1.products.find? (fun p => p.id == max a b) = some pb := by
            rw [hpr]
            exact hfb
          simp only [create_manual_link]
          rw [min_comm b a, max_comm b a]
          simp only [hfa1, hfb1]
          rw [if_neg happ]
          have hex2 : (get_existing_link db1.links (min a b) (max a b)).isSome
              = true := by
            rw [get_existing_link, List.find?_isSome]
            refine ⟨link, ?_, by simp [h1, h2]⟩
            rw [hlinks]
            exact List.mem_append_right _ (List.mem_singleton_self _)
          rw [if_pos hex2]

/-- A concrete two-product database used by the C4 witness. -/
def exDB : DB :=
  ⟨[{ id := 1, source_app := "ben_soliman" },
    { id := 2, source_app := "tager_elsaada" }], []⟩

/-- The link row that `create_manual_link exDB 0 2 1 none` stores. -/
def exLink : ProductLink :=
  { product_a_id := 1
    product_b_id := 2
    link_type := "manual"
    confidence_score := 1
    match_reason := "Manually linked by user"
    verified_by := none
    verified_at := none }

/-- The database after the first manual link of the C4 witness. -/
def exDB1 : DB := ⟨exDB.products, [exLink]⟩

/-- Witness for C4: linking (2, 1) succeeds and stores (1, 2); the reversed
call (1, 2) is then rejected as a duplicate. -/
theorem manual_link_canonical_witness :
    ((create_manual_link exDB 0 2 1 none).1.links.map
      (fun l => (l.product_a_id, l.product_b_id))) = [(1, 2)] ∧
    (create_manual_link (create_manual_link exDB 0 2 1 none).1 1 1 2 none).2
      = .error "Link already exists between these products" := by
  obtain ⟨h1, h2, h3, h4, h5⟩ :=
    manual_link_canonical exDB 0 1 2 1 none none exDB1 exLink rfl
  constructor
  · show exDB1.links.map (fun l => (l.product_a_id, l.product_b_id)) = [(1, 2)]
    rfl
  · show (create_manual_link exDB1 1 1 2 none).2
      = .error "Link already exists between these products"
    rw [h5]

/-! ### Batch barcode pass (`LinkingService.auto_link_by_barcode`) -/

/-- The stripped barcode under which a product is grouped: `none` when the
barcode is missing, empty (the SQL filter), or whitespace-only (the
`if barcode:` test after `strip()`). -/
def barcodeKey (p : Product) : Option String :=
  match p.barcode with
  | none => none
  | some s =>
      if s = "" then none
      else (if pyStrip s = "" then none else some (pyStrip s))

/-- Distinct values in first-occurrence order — the iteration order of a
Python `dict` built by insertion, and the cardinality of a Python `set`. -/
def firstKeysAux [BEq α] (seen : List α) : List α → List α
  | [] => []
  | x :: xs =>
      if seen.contains x then firstKeysAux seen xs
      else x :: firstKeysAux (x :: seen) xs

def firstKeys [BEq α] (l : List α) : List α := firstKeysAux [] l

/-- All ordered pairs `(l[i], l[j])` with `i < j` — the nested
`for i, prod_a in enumerate(...)` / `for prod_b in products_list[i+1:]`
loops. -/
def pairsOf : List α → List (α × α)
  | [] => []
  | x :: xs => xs.map (fun y => (x, y)) ++ pairsOf xs

/-- The link row created for a barcode group member pair. -/
def mkBarcodeLink (barcode : String) (pa pb : Product) : ProductLink :=
  { product_a_id := min pa.id pb.id
    product_b_id := max pa.id pb.id
    link_type := "barcode"
    confidence_score := 1
    match_reason := "Matching barcode: " ++ barcode
    is_active := true }

/-- The products the SQL query returns: barcode not null and not the empty
string, optionally restricted to one source app. -/
def sqlBarcoded (db : DB) (src : Option String) : List Product :=
  (db.products.filter (fun p =>
      match p.barcode with
      | none => false
      | some s => !(s == ""))).filter (fun p =>
        match src with
        | none => true
        | some sa => p.source_app == sa)

/-- The members of the barcode group keyed `k`, in table order. -/
def barcodeGroup (db : DB) (src : Option String) (k : String) : List Product :=
  (sqlBarcoded db src).filter (fun p => barcodeKey p == some k)

/-- The candidate pairs the barcode pass iterates over, in order: barcode
groups in first-occurrence order, groups spanning fewer than two distinct
apps skipped, and within a group only cross-app index pairs retained; each
candidate carries its group's barcode. -/
def candidate_pairs (db : DB) (src : Option String) :
    List (String × Product × Product) :=
  (firstKeys ((sqlBarcoded db src).filterMap barcodeKey)).bind (fun k =>
    if (firstKeys ((barcodeGroup db src k).map (fun p => p.source_app))).length < 2
    then []
    else (pairsOf (barcodeGroup db src k)).filterMap (fun pq =>
      if pq.1.source_app == pq.2.source_app then none else some (k, pq)))

/-- One iteration of the pair loop: skip when any row for the canonical pair
already exists (active or not), otherwise stage the new link; the counters
are `links_created` and `links_skipped`. -/
def link_step (acc : List ProductLink × ℕ × ℕ)
    (c : String × Product × Product) : List ProductLink × ℕ × ℕ :=
  match get_existing_link acc.1 c.2.1.id c.2.2.id with
  | some _ => (acc.1, acc.2.1, acc.2.2 + 1)
  | none => (acc.1 ++ [mkBarcodeLink c.1 c.2.1 c.2.2], acc.2.1 + 1, acc.2.2)

/-- `LinkingService.auto_link_by_barcode`: returns the updated database and
the `links_created` / `links_skipped` statistics. -/
def auto_link_by_barcode (db : DB) (src : Option String) : DB × ℕ × ℕ :=
  let r := (candidate_pairs db src).foldl link_step (db.links, 0, 0)
  ({ db with links := r.1 }, r.2)

/-- A database with two cross-source products sharing barcode "123" and a
pre-existing **inactive** link row for the pair. -/
def cexDB : DB :=
  ⟨[{ id := 1, source_app := "ben_soliman", barcode := some "123" },
    { id := 2, source_app := "tager_elsaada", barcode := some "123" }],
   [{ product_a_id := 1
      product_b_id := 2
      link_type := "manual"
      confidence_score := 1
      match_reason := ""
      is_active := false }]⟩

/-- **C3 counterexample**: no active link exists for the cross-source pair
(1, 2) sharing barcode "123", yet the pass creates nothing — the
duplicate check (`_get_existing_link`) matches the inactive row too, so the
pair ends up without any barcode link, contradicting the claim's
"created unless an *active* link already exists". -/
theorem auto_link_counterexample :
    (cexDB.links.all (fun l => !l.is_active)) = true ∧
    (auto_link_by_barcode cexDB none).1.links = cexDB.links ∧
    ((auto_link_by_barcode cexDB none).1.links.filter
      (fun l => l.link_type == "barcode")).length = 0 :=
  ⟨rfl, rfl, rfl⟩

/-! ### Lemmas about the barcode pass -/

/-- The canonical key of a stored link. -/
def keyP (k : ℤ × ℤ) (l : ProductLink) : Bool :=
  l.product_a_id == k.1 && l.product_b_id == k.2

/-- The canonical key a candidate pair would be stored under. -/
def linkKeyOf (c : String × Product × Product) : ℤ × ℤ :=
  (min c.2.1.id c.2.2.id, max c.2.1.id c.2.2.id)

lemma get_existing_link_eq_find? (ls : List ProductLink) (a b : ℤ) :
    get_existing_link ls a b = ls.find? (keyP (min a b, max a b)) := rfl

lemma exist_isSome_iff (ls : List ProductLink) (a b : ℤ) :
    (get_existing_link ls a b).isSome = true ↔
      ls.filter (keyP (min a b, max a b)) ≠ [] := by
  rw [get_existing_link_eq_find?, List.find?_isSome]
  constructor
  · rintro ⟨x, hx, hpx⟩ hnil
    rw [List.filter_eq_nil] at hnil
    exact hnil x hx hpx
  · intro hne
    by_contra hno
    push_neg at hno
    apply hne
    rw [List.filter_eq_nil]
    intro x hx
    simp only [Bool.not_eq_true]
    have := hno x hx
    simpa using this

lemma keyP_mkBarcodeLink (k : ℤ × ℤ) (s : String) (pa pb : Product) :
    keyP k (mkBarcodeLink s pa pb) = true ↔
      (min pa.id pb.id, max pa.id pb.id) = k := by
  cases k with
  | mk k1 k2 =>
    simp [keyP, mkBarcodeLink, Prod.ext_iff]

lemma link_step_links (acc : List ProductLink × ℕ × ℕ)
    (c : String × Product × Product) :
    (link_step acc c).1 =
      if (get_existing_link acc.1 c.2.1.id c.2.2.id).isSome
      then acc.1 else acc.1 ++ [mkBarcodeLink c.1 c.2.1 c.2.2] := by
  unfold link_step
  cases h : get_existing_link acc.1 c.2.1.id c.2.2.id <;> simp [h]

lemma linkKeyOf_def (c : String × Product × Product) :
    linkKeyOf c = (min c.2.1.id c.2.2.id, max c.2.1.id c.2.2.id) := rfl

lemma fold_stable (k : ℤ × ℤ) :
    ∀ (cands : List (String × Product × Product))
      (acc : List ProductLink × ℕ × ℕ),
      acc.1.filter (keyP k) ≠ [] →
      ((cands.foldl link_step acc).1.filter (keyP k)) = acc.1.filter (keyP k) := by
  intro cands
  induction cands with
  | nil =>
    intro acc _
    rfl
  | cons c cs ih =>
    intro acc hne
    rw [List.foldl_cons]
    have hstep : (link_step acc c).1.filter (keyP k) = acc.1.filter (keyP k) := by
      rw [link_step_links]
      by_cases hex : (get_existing_link acc.1 c.2.1.id c.2.2.id).isSome = true
      · rw [if_pos hex]
      · rw [if_neg hex]
        rw [List.filter_append]
        by_cases hkc : linkKeyOf c = k
        · exfalso
          apply hex
          rw [exist_isSome_iff, linkKeyOf_def] at *
          rw [show (min c.2.1.id c.2.2.id, max c.2.1.id c.2.2.id) = k from hkc]
          exact hne
        · have hfalse : keyP k (mkBarcodeLink c.1 c.2.1 c.2.2) = false := by
            rw [Bool.eq_false_iff]
            intro habs
            exact hkc ((keyP_mkBarcodeLink k c.1 c.2.1 c.2.2).mp habs)
          simp [List.filter_cons, hfalse]
    rw [ih (link_step acc c) (by rw [hstep]; exact hne), hstep]

lemma fold_none (k : ℤ × ℤ) :
    ∀ (cands : List (String × Product × Product))
      (acc : List ProductLink × ℕ × ℕ),
      (¬ ∃ c ∈ cands, linkKeyOf c = k) →
      acc.1.filter (keyP k) = [] →
      ((cands.foldl link_step acc).1.filter (keyP k)) = [] := by
  intro cands
  induction cands with
  | nil =>
    intro acc _ h
    exact h
  | cons c cs ih =>
    intro acc hnone hnil
    rw [List.foldl_cons]
    have hkc : linkKeyOf c ≠ k := by
      intro habs
      exact hnone ⟨c, List.mem_cons_self c cs, habs⟩
    have hstep : (link_step acc c).1.filter (keyP k) = [] := by
      rw [link_step_links]
      by_cases hex : (get_existing_link acc.1 c.2.1.id c.2.2.id).isSome = true
      · rw [if_pos hex]
        exact hnil
      · rw [if_neg hex, List.filter_append, hnil]
        have hfalse : keyP k (mkBarcodeLink c.1 c.2.1 c.2.2) = false := by
          rw [Bool.eq_false_iff]
          intro habs
          exact hkc ((keyP_mkBarcodeLink k c.1 c.2.1 c.2.2).mp habs)
        simp [List.filter_cons, hfalse]
    exact ih (link_step acc c)
      (fun ⟨c', hc', hk'⟩ => hnone ⟨c', List.mem_cons_of_mem _ hc', hk'⟩) hstep

lemma fold_create (k : ℤ × ℤ) (L : ProductLink) (hLkey : keyP k L = true) :
    ∀ (cands : List (String × Product × Product))
      (acc : List ProductLink × ℕ × ℕ),
      (∀ c ∈ cands, linkKeyOf c = k → mkBarcodeLink c.1 c.2.1 c.2.2 = L) →
      acc.1.filter (keyP k) = [] →
      (∃ c ∈ cands, linkKeyOf c = k) →
      ((cands.foldl link_step acc).1.filter (keyP k)) = [L] := by
  intro cands
  induction cands with
  | nil =>
    rintro acc _ _ ⟨c, hc, -⟩
    cases hc
  | cons c cs ih =>
    intro acc hall hnil hex
    rw [List.foldl_cons]
    by_cases hkc : linkKeyOf c = k
    · have hnoex : ¬ (get_existing_link acc.1 c.2.1.id c.2.2.id).isSome = true := by
        rw [exist_isSome_iff]
        intro habs
        apply habs
        rw [show (min c.2.1.id c.2.2.id, max c.2.1.id c.2.2.id) = k from hkc]
        exact hnil
      have hstep1 : (link_step acc c).1 = acc.1 ++ [L] := by
        rw [link_step_links, if_neg hnoex, hall c (List.mem_cons_self c cs) hkc]
      have hfilterL : (acc.1 ++ [L]).filter (keyP k) = [L] := by
        rw [List.filter_append, hnil]
        simp [List.filter_cons, hLkey]
      rw [fold_stable k cs (link_step acc c)
        (by rw [hstep1, hfilterL]; simp)]
      rw [hstep1, hfilterL]
    · have hstepf : (link_step acc c).1.filter (keyP k) = [] := by
        rw [link_step_links]
        by_cases hex2 : (get_existing_link acc.1 c.2.1.id c.2.2.id).isSome = true
        · rw [if_pos hex2]
          exact hnil
        · rw [if_neg hex2, List.filter_append, hnil]
          have hfalse : keyP k (mkBarcodeLink c.1 c.2.1 c.2.2) = false := by
            rw [Bool.eq_false_iff]
            intro habs
            exact hkc ((keyP_mkBarcodeLink k c.1 c.2.1 c.2.2).mp habs)
          simp [List.filter_cons, hfalse]
      refine ih (link_step acc c)
        (fun c' hc' => hall c' (List.mem_cons_of_mem _ hc')) hstepf ?_
      rcases hex with ⟨c', hc', hk'⟩
      rcases List.mem_cons.mp hc' with rfl | hmem
      · exact absurd hk' hkc
      · exact ⟨c', hmem, hk'⟩

lemma mem_firstKeysAux [BEq α] [LawfulBEq α] (a : α) :
    ∀ (l : List α) (seen : List α),
      a ∈ firstKeysAux seen l ↔ (a ∈ l ∧ a ∉ seen) := by
  intro l
  induction l with
  | nil => simp [firstKeysAux]
  | cons x xs ih =>
    intro seen
    by_cases hx : seen.contains x = true
    · rw [show firstKeysAux seen (x :: xs) = firstKeysAux seen xs from by
        rw [firstKeysAux, if_pos hx]]
      rw [ih seen]
      have hxs : x ∈ seen := by
        simpa using hx
      constructor
      · rintro ⟨h1, h2⟩
        exact ⟨List.mem_cons_of_mem _ h1, h2⟩
      · rintro ⟨h1, h2⟩
        rcases List.mem_cons.mp h1 with rfl | h1'
        · exact absurd hxs h2
        · exact ⟨h1', h2⟩
    · rw [show firstKeysAux seen (x :: xs)
          = x :: firstKeysAux (x :: seen) xs from by
        rw [firstKeysAux, if_neg hx]]
      have hxs : x ∉ seen := by
        intro habs
        exact hx (by simpa using habs)
      constructor
      · intro h
        rcases List.mem_cons.mp h with rfl | h'
        · exact ⟨List.mem_cons_self _ _, hxs⟩
        · obtain ⟨h1, h2⟩ := (ih (x :: seen)).mp h'
          refine ⟨List.mem_cons_of_mem _ h1, ?_⟩
          intro habs
          exact h2 (List.mem_cons_of_mem _ habs)
      · rintro ⟨h1, h2⟩
        rcases List.mem_cons.mp h1 with rfl | h1'
        · exact List.mem_cons_self _ _
        · by_cases hax : a = x
          · subst hax
            exact List.mem_cons_self _ _
          · refine List.mem_cons_of_mem _ ((ih (x :: seen)).mpr ⟨h1', ?_⟩)
            intro habs
            rcases List.mem_cons.mp habs with h | h
            · exact hax h
            · exact h2 h

lemma mem_firstKeys [BEq α] [LawfulBEq α] (a : α) (l : List α) :
    a ∈ firstKeys l ↔ a ∈ l := by
  rw [firstKeys, mem_firstKeysAux]
  simp

lemma two_le_length_of_two_mem (l : List α) (a b : α)
    (ha : a ∈ l) (hb : b ∈ l) (hab : a ≠ b) : 2 ≤ l.length := by
  cases l with
  | nil => cases ha
  | cons x xs =>
    cases xs with
    | nil =>
      simp only [List.mem_singleton] at ha hb
      exact absurd (ha.trans hb.symm) hab
    | cons y ys =>
      simp only [List.length_cons]
      omega

lemma pairsOf_mem_of_mem (l : List α) (a b : α) (ha : a ∈ l) (hb : b ∈ l)
    (hab : a ≠ b) : (a, b) ∈ pairsOf l ∨ (b, a) ∈ pairsOf l := by
  induction l with
  | nil => cases ha
  | cons x xs ih =>
    rcases List.mem_cons.mp ha with rfl | ha'
    · left
      rcases List.mem_cons.mp hb with rfl | hb'
      · exact absurd rfl hab
      · rw [pairsOf]
        exact List.mem_append_left _ (List.mem_map_of_mem _ hb')
    · rcases List.mem_cons.mp hb with rfl | hb'
      · right
        rw [pairsOf]
        exact List.mem_append_left _ (List.mem_map_of_mem _ ha')
      · rcases ih ha' hb' with h | h
        · left
          rw [pairsOf]
          exact List.mem_append_right _ h
        · right
          rw [pairsOf]
          exact List.mem_append_right _ h

lemma pairsOf_sub (l : List α) (a b : α) (h : (a, b) ∈ pairsOf l) :
    a ∈ l ∧ b ∈ l := by
  induction l with
  | nil => cases h
  | cons x xs ih =>
    rw [pairsOf] at h
    rcases List.mem_append.mp h with h' | h'
    · obtain ⟨y, hy, heq⟩ := List.mem_map.mp h'
      obtain ⟨h1, h2⟩ := Prod.mk.injEq .. ▸ heq
      subst h1
      subst h2
      exact ⟨List.mem_cons_self _ _, List.mem_cons_of_mem _ hy⟩
    · obtain ⟨h1, h2⟩ := ih h'
      exact ⟨List.mem_cons_of_mem _ h1, List.mem_cons_of_mem _ h2⟩

/-- Everything a candidate pair guarantees about its components. -/
lemma candidate_pairs_sound (db : DB) (src : Option String) (k : String)
    (pa pb : Product) (h : (k, pa, pb) ∈ candidate_pairs db src) :
    pa ∈ db.products ∧ pb ∈ db.products ∧
    barcodeKey pa = some k ∧ barcodeKey pb = some k ∧
    pa.source_app ≠ pb.source_app := by
  obtain ⟨k', hk', hmem⟩ := List.mem_bind.mp h
  by_cases hlt : (firstKeys ((barcodeGroup db src k').map
      (fun p => p.source_app))).length < 2
  · rw [if_pos hlt] at hmem
    cases hmem
  · rw [if_neg hlt] at hmem
    obtain ⟨pq, hpq, heq⟩ := List.mem_filterMap.mp hmem
    by_cases hsame : (pq.1.source_app == pq.2.source_app) = true
    · rw [if_pos hsame] at heq
      cases heq
    · rw [if_neg hsame] at heq
      obtain ⟨pq1, pq2⟩ := pq
      simp only [Option.some.injEq, Prod.mk.injEq] at heq
      obtain ⟨hkk, hpa, hpb⟩ := heq
      subst hkk
      rw [hpa, hpb] at hpq
      rw [hpa, hpb] at hsame
      obtain ⟨hga, hgb⟩ := pairsOf_sub _ _ _ hpq
      have hsrcne : pa.source_app ≠ pb.source_app := by
        intro habs
        apply hsame
        simp [habs]
      have hmema := List.mem_filter.mp hga
      have hmemb := List.mem_filter.mp hgb
      have hpsa := List.mem_filter.mp (List.mem_filter.mp hmema.1).1
      have hpsb := List.mem_filter.mp (List.mem_filter.mp hmemb.1).1
      refine ⟨hpsa.1, hpsb.1, ?_, ?_, hsrcne⟩
      · simpa using hmema.2
      · simpa using hmemb.2

/-- Every cross-source pair with a shared nonempty stripped barcode is
enumerated (in one of the two orders) by the unfiltered pass. -/
lemma candidate_pairs_complete (db : DB) (p q : Product) (ks : String)
    (hp : p ∈ db.products) (hq : q ∈ db.products)
    (happ : p.source_app ≠ q.source_app)
    (hkp : barcodeKey p = some ks) (hkq : barcodeKey q = some ks) :
    (ks, p, q) ∈ candidate_pairs db none ∨
    (ks, q, p) ∈ candidate_pairs db none := by
  have hbfilter : ∀ r : Product, barcodeKey r = some ks →
      (match r.barcode with
        | none => false
        | some s => !(s == "")) = true := by
    intro r hr
    cases hb : r.barcode with
    | none =>
      simp [barcodeKey, hb] at hr
    | some s =>
      simp only [barcodeKey, hb] at hr
      by_cases hs : s = ""
      · rw [if_pos hs] at hr
        cases hr
      · simp [hs]
  have hpsp : p ∈ sqlBarcoded db none := by
    rw [sqlBarcoded]
    exact List.mem_filter.mpr ⟨List.mem_filter.mpr ⟨hp, hbfilter p hkp⟩, rfl⟩
  have hpsq : q ∈ sqlBarcoded db none := by
    rw [sqlBarcoded]
    exact List.mem_filter.mpr ⟨List.mem_filter.mpr ⟨hq, hbfilter q hkq⟩, rfl⟩
  have hkeys : ks ∈ firstKeys ((sqlBarcoded db none).filterMap barcodeKey) :=
    (mem_firstKeys _ _).mpr (List.mem_filterMap.mpr ⟨p, hpsp, hkp⟩)
  have hgp : p ∈ barcodeGroup db none ks := by
    rw [barcodeGroup]
    exact List.mem_filter.mpr ⟨hpsp, by simp [hkp]⟩
  have hgq : q ∈ barcodeGroup db none ks := by
    rw [barcodeGroup]
    exact List.mem_filter.mpr ⟨hpsq, by simp [hkq]⟩
  have happs : ¬ (firstKeys ((barcodeGroup db none ks).map
      (fun p => p.source_app))).length < 2 := by
    rw [not_lt]
    refine two_le_length_of_two_mem _ p.source_app q.source_app ?_ ?_ happ
    · exact (mem_firstKeys _ _).mpr (List.mem_map_of_mem _ hgp)
    · exact (mem_firstKeys _ _).mpr (List.mem_map_of_mem _ hgq)
  have hpq : p ≠ q := by
    intro habs
    exact happ (by rw [habs])
  rcases pairsOf_mem_of_mem _ p q hgp hgq hpq with hmem | hmem
  · left
    refine List.mem_bind.mpr ⟨ks, hkeys, ?_⟩
    rw [if_neg happs]
    refine List.mem_filterMap.mpr ⟨(p, q), hmem, ?_⟩
    rw [if_neg (by simpa using happ)]
  · right
    refine List.mem_bind.mpr ⟨ks, hkeys, ?_⟩
    rw [if_neg happs]
    refine List.mem_filterMap.mpr ⟨(q, p), hmem, ?_⟩
    rw [if_neg (by simpa using happ.symm)]

lemma minmax_pair_eq {a b c d : ℤ} (h1 : min a b = min c d)
    (h2 : max a b = max c d) : (a = c ∧ b = d) ∨ (a = d ∧ b = c) := by
  omega

lemma auto_link_unfold (db : DB) (src : Option String) :
    (auto_link_by_barcode db src).1.links
      = ((candidate_pairs db src).foldl link_step (db.links, 0, 0)).1 := rfl

/-- **C3 (amended)**: after the unfiltered barcode pass, a cross-source pair
sharing a nonempty equal stripped barcode carries exactly the single link
`mkBarcodeLink` (type "barcode", confidence 1.0, active) — created unless
**any** link row for the pair already existed, active or not, in which case
the pair's rows are left exactly as they were; same-source pairs' rows are
never touched.  (`hnodup` is the products table's primary-key invariant.) -/
theorem auto_link_barcode_spec (db : DB) (p q : Product) (ks : String)
    (hnodup : (db.products.map (fun r => r.id)).Nodup)
    (hp : p ∈ db.products) (hq : q ∈ db.products)
    (happ : p.source_app ≠ q.source_app)
    (hkp : barcodeKey p = some ks) (hkq : barcodeKey q = some ks) :
    (auto_link_by_barcode db none).1.products = db.products ∧
    (db.links.filter (keyP (min p.id q.id, max p.id q.id)) = [] →
      (auto_link_by_barcode db none).1.links.filter
        (keyP (min p.id q.id, max p.id q.id)) = [mkBarcodeLink ks p q]) ∧
    (db.links.filter (keyP (min p.id q.id, max p.id q.id)) ≠ [] →
      (auto_link_by_barcode db none).1.links.filter
          (keyP (min p.id q.id, max p.id q.id))
        = db.links.filter (keyP (min p.id q.id, max p.id q.id))) ∧
    (∀ p' q', p' ∈ db.products → q' ∈ db.products →
      p'.source_app = q'.source_app →
      (auto_link_by_barcode db none).1.links.filter
          (keyP (min p'.id q'.id, max p'.id q'.id))
        = db.links.filter (keyP (min p'.id q'.id, max p'.id q'.id))) := by
  have hinj : ∀ x ∈ db.products, ∀ y ∈ db.products, x.id = y.id → x = y :=
    fun x hx y hy hxy => List.inj_on_of_nodup_map hnodup hx hy hxy
  have hall : ∀ c ∈ candidate_pairs db none,
      linkKeyOf c = (min p.id q.id, max p.id q.id) →
      mkBarcodeLink c.1 c.2.1 c.2.2 = mkBarcodeLink ks p q := by
    rintro ⟨k', pa, pb⟩ hc hkey
    obtain ⟨hpa, hpb, hbka, hbkb, hsne⟩ :=
      candidate_pairs_sound db none k' pa pb hc
    rw [linkKeyOf_def] at hkey
    simp only [Prod.mk.injEq] at hkey
    rcases minmax_pair_eq hkey.1 hkey.2 with ⟨ha, hb⟩ | ⟨ha, hb⟩
    · have hpaeq : pa = p := hinj pa hpa p hp ha
      have hpbeq : pb = q := hinj pb hpb q hq hb
      have hks : k' = ks := by
        rw [hpaeq] at hbka
        rw [hkp] at hbka
        exact (Option.some_inj.mp hbka).symm
      rw [hpaeq, hpbeq, hks]
    · have hpaeq : pa = q := hinj pa hpa q hq ha
      have hpbeq : pb = p := hinj pb hpb p hp hb
      have hks : k' = ks := by
        rw [hpaeq] at hbka
        rw [hkq] at hbka
        exact (Option.some_inj.mp hbka).symm
      rw [hpaeq, hpbeq, hks]
      simp [mkBarcodeLink, min_comm, max_comm]
  have hLkey : keyP (min p.id q.id, max p.id q.id) (mkBarcodeLink ks p q)
      = true := by
    simp [keyP, mkBarcodeLink]
  have hexists : ∃ c ∈ candidate_pairs db none,
      linkKeyOf c = (min p.id q.id, max p.id q.id) := by
    rcases candidate_pairs_complete db p q ks hp hq happ hkp hkq with h | h
    · exact ⟨(ks, p, q), h, rfl⟩
    · refine ⟨(ks, q, p), h, ?_⟩
      rw [linkKeyOf_def]
      simp [min_comm, max_comm]
  refine ⟨rfl, ?_, ?_, ?_⟩
  · intro hnil
    rw [auto_link_unfold]
    exact fold_create _ (mkBarcodeLink ks p q) hLkey _ _ hall hnil hexists
  · intro hne
    rw [auto_link_unfold]
    exact fold_stable _ _ _ hne
  · intro p' q' hp' hq' hsame
    have hnone : ¬ ∃ c ∈ candidate_pairs db none,
        linkKeyOf c = (min p'.id q'.id, max p'.id q'.id) := by
      rintro ⟨⟨k'', pa, pb⟩, hc, hk⟩
      obtain ⟨hpa, hpb, -, -, hsne⟩ := candidate_pairs_sound db none k'' pa pb hc
      rw [linkKeyOf_def] at hk
      simp only [Prod.mk.injEq] at hk
      rcases minmax_pair_eq hk.1 hk.2 with ⟨ha, hb⟩ | ⟨ha, hb⟩
      · have h1 : pa = p' := hinj pa hpa p' hp' ha
        have h2 : pb = q' := hinj pb hpb q' hq' hb
        rw [h1, h2] at hsne
        exact hsne hsame
      · have h1 : pa = q' := hinj pa hpa q' hq' ha
        have h2 : pb = p' := hinj pb hpb p' hp' hb
        rw [h1, h2] at hsne
        exact hsne hsame.symm
    by_cases hnil : db.links.filter (keyP (min p'.id q'.id, max p'.id q'.id)) = []
    · rw [auto_link_unfold, fold_none _ _ _ hnone hnil, hnil]
    · rw [auto_link_unfold]
      exact fold_stable _ _ _ hnil

/-- The two cross-source products of the C3 witness. -/
def exP1 : Product := { id := 1, source_app := "ben_soliman", barcode := some "123" }

/-- Second product of the C3 witness, from another source. -/
def exP2 : Product := { id := 2, source_app := "tager_elsaada", barcode := some "123" }

/-- Witness for C3's amended theorem: on a link-free table, the pass leaves
exactly one barcode link for the shared-barcode cross-source pair. -/
theorem auto_link_barcode_witness :
    (auto_link_by_barcode (⟨[exP1, exP2], []⟩ : DB) none).1.links.filter
        (keyP (min exP1.id exP2.id, max exP1.id exP2.id))
      = [mkBarcodeLink "123" exP1 exP2] := by
  have h := auto_link_barcode_spec ⟨[exP1, exP2], []⟩ exP1 exP2 "123"
    (by decide) (by simp) (by simp) (by decide) rfl rfl
  exact h.2.1 rfl

/-! ### Heuristic scoring (`_calculate_similarity`, `_multi_strategy_match`)

`difflib.SequenceMatcher` is modelled exactly for sequences short enough to
escape autojunk (fewer than 200 elements — product names and SKUs): the
longest matching block (longest common contiguous run; ties broken by the
smallest start in `a`, then in `b`), recursive block decomposition, and
`ratio() = 2*M/T`.  Recursions that consume at least one element per step
are written with an explicit fuel that is always sufficient. -/

/-- Length of the common leading run of two sequences. -/
def runLen : List Char → List Char → ℕ
  | a :: as, b :: bs => if a = b then runLen as bs + 1 else 0
  | _, _ => 0

/-- `SequenceMatcher.find_longest_match` over whole sequences (no junk):
the longest common contiguous block `(i, j, size)`, ties resolved towards
the smallest `i`, then the smallest `j` — the scan order of difflib's
strictly-improving update. -/
def bestMatch (a b : List Char) : ℕ × ℕ × ℕ :=
  (List.range a.length).foldl (fun best i =>
    (List.range b.length).foldl (fun best j =>
      let k := runLen (a.drop i) (b.drop j)
      if k > best.2.2 then (i, j, k) else best) best) (0, 0, 0)

/-- Total size of all matching blocks (`get_matching_blocks`): recurse on
both sides of the longest block.  Fuel `a.length + 1` suffices since each
recursive call strictly shrinks the first sequence. -/
def matchTotalAux : ℕ → List Char → List Char → ℕ
  | 0, _, _ => 0
  | fuel + 1, a, b =>
      let m := bestMatch a b
      if m.2.2 = 0 then 0
      else matchTotalAux fuel (a.take m.1) (b.take m.2.1) + m.2.2 +
        matchTotalAux fuel (a.drop (m.1 + m.2.2)) (b.drop (m.2.1 + m.2.2))

def matchTotal (a b : List Char) : ℕ := matchTotalAux (a.length + 1) a b

/-- `SequenceMatcher.ratio()`: `2*M/T`, and 1.0 for two empty sequences. -/
def seqSim (a b : List Char) : ℚ :=
  if a.length + b.length = 0 then 1
  else 2 * (matchTotal a b : ℚ) / ((a.length : ℚ) + (b.length : ℚ))

def seqSimStr (a b : String) : ℚ := seqSim a.data b.data

lemma runLen_le_left (xs : List Char) : ∀ ys, runLen xs ys ≤ xs.length := by
  induction xs with
  | nil => intro ys; cases ys <;> simp [runLen]
  | cons x xs ih =>
    intro ys
    cases ys with
    | nil => simp [runLen]
    | cons y ys' =>
      by_cases h : x = y
      · simp only [runLen, if_pos h, List.length_cons]
        exact Nat.succ_le_succ (ih ys')
      · simp [runLen, h]

lemma runLen_le_right (xs : List Char) : ∀ ys, runLen xs ys ≤ ys.length := by
  induction xs with
  | nil => intro ys; cases ys <;> simp [runLen]
  | cons x xs ih =>
    intro ys
    cases ys with
    | nil => simp [runLen]
    | cons y ys' =>
      by_cases h : x = y
      · simp only [runLen, if_pos h, List.length_cons]
        exact Nat.succ_le_succ (ih ys')
      · simp [runLen, h]

lemma bestMatch_valid (a b : List Char) :
    (bestMatch a b).1 + (bestMatch a b).2.2 ≤ a.length ∧
    (bestMatch a b).2.1 + (bestMatch a b).2.2 ≤ b.length := by
  rw [bestMatch]
  apply List.foldlRecOn (motive := fun best : ℕ × ℕ × ℕ =>
    best.1 + best.2.2 ≤ a.length ∧ best.2.1 + best.2.2 ≤ b.length)
  · simp
  · intro best hbest i hi
    apply List.foldlRecOn (motive := fun best : ℕ × ℕ × ℕ =>
      best.1 + best.2.2 ≤ a.length ∧ best.2.1 + best.2.2 ≤ b.length)
    · exact hbest
    · intro best' hbest' j hj
      by_cases hk : runLen (a.drop i) (b.drop j) > best'.2.2
      · rw [if_pos hk]
        have hia : i < a.length := List.mem_range.mp hi
        have hjb : j < b.length := List.mem_range.mp hj
        have h1 : runLen (a.drop i) (b.drop j) ≤ a.length - i := by
          have := runLen_le_left (a.drop i) (b.drop j)
          simpa using this
        have h2 : runLen (a.drop i) (b.drop j) ≤ b.length - j := by
          have := runLen_le_right (a.drop i) (b.drop j)
          simpa using this
        constructor
        · show i + runLen (a.drop i) (b.drop j) ≤ a.length
          omega
        · show j + runLen (a.drop i) (b.drop j) ≤ b.length
          omega
      · rw [if_neg hk]
        exact hbest'

lemma matchTotalAux_le (fuel : ℕ) : ∀ a b : List Char,
    matchTotalAux fuel a b ≤ a.length ∧ matchTotalAux fuel a b ≤ b.length := by
  induction fuel with
  | zero => intro a b; simp [matchTotalAux]
  | succ fuel ih =>
    intro a b
    rw [matchTotalAux]
    by_cases hk : (bestMatch a b).2.2 = 0
    · rw [if_pos hk]
      simp
    · rw [if_neg hk]
      obtain ⟨hva, hvb⟩ := bestMatch_valid a b
      obtain ⟨h1a, h1b⟩ := ih (a.take (bestMatch a b).1) (b.take (bestMatch a b).2.1)
      obtain ⟨h2a, h2b⟩ := ih (a.drop ((bestMatch a b).1 + (bestMatch a b).2.2))
        (b.drop ((bestMatch a b).2.1 + (bestMatch a b).2.2))
      rw [List.length_take] at h1a h1b
      rw [List.length_drop] at h2a h2b
      constructor
      · omega
      · omega

lemma matchTotal_le (a b : List Char) :
    matchTotal a b ≤ a.length ∧ matchTotal a b ≤ b.length :=
  matchTotalAux_le _ a b

lemma seqSim_bounds (a b : List Char) : 0 ≤ seqSim a b ∧ seqSim a b ≤ 1 := by
  rw [seqSim]
  by_cases h : a.length + b.length = 0
  · rw [if_pos h]
    norm_num
  · rw [if_neg h]
    have hpos : (0 : ℚ) < (a.length : ℚ) + (b.length : ℚ) := by
      have : 0 < a.length + b.length := Nat.pos_of_ne_zero h
      exact_mod_cast this
    obtain ⟨hla, hlb⟩ := matchTotal_le a b
    constructor
    · apply div_nonneg _ (le_of_lt hpos)
      positivity
    · rw [div_le_one hpos]
      have hla' : (matchTotal a b : ℚ) ≤ (a.length : ℚ) := by exact_mod_cast hla
      have hlb' : (matchTotal a b : ℚ) ≤ (b.length : ℚ) := by exact_mod_cast hlb
      linarith

lemma seqSimStr_bounds (a b : String) : 0 ≤ seqSimStr a b ∧ seqSimStr a b ≤ 1 :=
  seqSim_bounds a.data b.data

/-! ### Text plumbing for the heuristics (`re`-based helpers).

The two `re.sub` size-pattern scans and the `re.findall` word extraction
are modelled by direct scanners.  `\w` (for `\b`) covers ASCII
alphanumerics, the underscore, and the Arabic block the data uses;
Python's full-Unicode word classes agree on this data. -/

/-- Word characters for the `\b` boundary after a unit word. -/
def isWordChar (c : Char) : Bool :=
  c.isAlphanum || c == '_' || (decide (0x600 ≤ c.toNat) && decide (c.toNat ≤ 0x6FF))

def isArabicChar (c : Char) : Bool :=
  decide (0x600 ≤ c.toNat) && decide (c.toNat ≤ 0x6FF)

def isLatinChar (c : Char) : Bool :=
  (decide ('a' ≤ c) && decide (c ≤ 'z')) || (decide ('A' ≤ c) && decide (c ≤ 'Z'))

/-- Case-insensitive literal match of `unit` at the head of `s`; returns the
rest on success. -/
def matchUnit : List Char → List Char → Option (List Char)
  | [], rest => some rest
  | _ :: _, [] => none
  | u :: us, c :: cs =>
      if Char.toLower c == Char.toLower u then matchUnit us cs else none

/-- Ordered alternation over the unit words followed by the `\b` check; a
failed boundary backtracks to the next alternative, as the regex engine
does. -/
def tryUnits (units : List String) (s : List Char) : Option (List Char) :=
  match units with
  | [] => none
  | u :: us =>
      match matchUnit u.data s with
      | some rest =>
          match rest with
          | [] => some rest
          | c :: _ => if isWordChar c then tryUnits us s else some rest
      | none => tryUnits us s

/-- One attempted match of `\d+(\.?\d*)?\s*(unit)\b` at the current
position (digits, spaces and the optional decimal part are matched
greedily; no shorter match can succeed because no unit word starts with a
digit, a dot or a space). -/
def matchSize (allowDecimal : Bool) (units : List String) (s : List Char) :
    Option (List Char) :=
  match s with
  | [] => none
  | c :: _ =>
      if c.isDigit then
        let ds := s.dropWhile Char.isDigit
        let afterDec :=
          if allowDecimal then
            match ds with
            | '.' :: rest2 => rest2.dropWhile Char.isDigit
            | _ => ds
          else ds
        tryUnits units (afterDec.dropWhile Char.isWhitespace)
      else none

/-- `re.sub(size_pattern, '', s)`: scan left to right, removing each
non-overlapping match.  Fuel `s.length` suffices: every step consumes at
least one character. -/
def stripSizesAux (allowDecimal : Bool) (units : List String) :
    ℕ → List Char → List Char
  | 0, s => s
  | _, [] => []
  | fuel + 1, c :: cs =>
      match matchSize allowDecimal units (c :: cs) with
      | some rest => stripSizesAux allowDecimal units fuel rest
      | none => c :: stripSizesAux allowDecimal units fuel cs

def stripSizes (allowDecimal : Bool) (units : List String) (s : List Char) :
    List Char :=
  stripSizesAux allowDecimal units s.length s

/-- Python `str.split()`: split on whitespace runs, dropping empties. -/
def splitWsAux : List Char → List Char → List (List Char)
  | [], acc => if acc.isEmpty then [] else [acc.reverse]
  | c :: cs, acc =>
      if c.isWhitespace then
        if acc.isEmpty then splitWsAux cs [] else acc.reverse :: splitWsAux cs []
      else splitWsAux cs (c :: acc)

def splitWs (s : List Char) : List (List Char) := splitWsAux s []

/-- `' '.join(words)`. -/
def joinWords : List (List Char) → List Char
  | [] => []
  | [w] => w
  | w :: ws => w ++ ' ' :: joinWords ws

/-- `re.findall(r'[؀-ۿ]+|[a-zA-Z]+', s)`: the maximal runs of
Arabic-block or Latin letters, in order.  Fuel `s.length` suffices. -/
def extractWordsF : ℕ → List Char → List String
  | 0, _ => []
  | _, [] => []
  | fuel + 1, c :: cs =>
      if isArabicChar c then
        String.mk ((c :: cs).takeWhile isArabicChar)
          :: extractWordsF fuel ((c :: cs).dropWhile isArabicChar)
      else if isLatinChar c then
        String.mk ((c :: cs).takeWhile isLatinChar)
          :: extractWordsF fuel ((c :: cs).dropWhile isLatinChar)
      else extractWordsF fuel cs

def extractWords (s : List Char) : List String := extractWordsF s.length s

/-- Module-level `ARABIC_STOPWORDS` (a Python set; only membership is
used). -/
def ARABIC_STOPWORDS : List String :=
  ["من", "في", "على", "مع", "عن", "إلى", "و", "ب", "ال", "جم", "جرام",
   "مل", "لتر", "كجم", "ك", "قطعة", "علبة", "كرتونة", "حبة"]

/-- Module-level `ENGLISH_STOPWORDS`. -/
def ENGLISH_STOPWORDS : List String :=
  ["the", "a", "an", "of", "and", "or", "with", "for", "in", "to", "g",
   "gm", "ml", "l", "kg", "pcs", "pack"]

/-- The unit alternatives of `_normalize_name`'s size pattern. -/
def normUnits : List String :=
  ["جم", "جرام", "مل", "لتر", "كجم", "g", "gm", "ml", "l", "kg"]

/-- The unit alternatives of `_tokenize_name`'s size pattern. -/
def tokUnits : List String := normUnits ++ ["ك"]

/-- `LinkingService._normalize_name`: strip size patterns, collapse
whitespace, lowercase, strip. -/
def normalize_name (name : String) : String :=
  let n1 := stripSizes false normUnits name.data
  let n2 := joinWords (splitWs n1)
  pyStrip (pyLower (String.mk n2))

/-- `LinkingService._tokenize_name`: strip size patterns and digits, then
keep the lowercased letter runs longer than 2 that are not stopwords, as a
set. -/
def tokenize_list (name : String) : List String :=
  let n1 := stripSizes true tokUnits name.data
  let n2 := n1.filter (fun c => !c.isDigit)
  let ws := extractWords (n2.map Char.toLower)
  ws.filter (fun w => w.length > 2 && !(ARABIC_STOPWORDS.contains w)
    && !(ENGLISH_STOPWORDS.contains w))

def tokenize_name (name : String) : Finset String :=
  (tokenize_list name).toFinset

/-- Leading-segment equality of character lists. -/
def leadEq : List Char → List Char → Bool
  | [], _ => true
  | _ :: _, [] => false
  | x :: xs, y :: ys => x == y && leadEq xs ys

/-- Python `needle in hay` substring containment. -/
def hasSub (needle hay : List Char) : Bool :=
  (List.range (hay.length + 1)).any (fun i => leadEq needle (hay.drop i))

/-- `LinkingService._partial_match`. -/
def pMatch (a b : String) : ℚ :=
  let shorter := if a.length < b.length then a else b
  let longer := if a.length < b.length then b else a
  if hasSub shorter.data longer.data then
    (shorter.length : ℚ) / (longer.length : ℚ)
  else
    let ws := ((splitWs shorter.data).map String.mk).toFinset
    let wl := ((splitWs longer.data).map String.mk).toFinset
    if ws ≠ ∅ ∧ ws ⊆ wl then (ws.card : ℚ) / (wl.card : ℚ)
    else 0

/-- `LinkingService._extract_brand`: `if product.brand:` is false for an
empty brand string; for a `Brand` object, `name or name_ar`. -/
def extract_brand (p : Product) : Option String :=
  match p.brand with
  | none => none
  | some (Sum.inl s) => if s = "" then none else some s
  | some (Sum.inr br) => if optStrTruthy br.name then br.name else br.name_ar

/-- `f"{x:.0%}"`. -/
def fmtPct (x : ℚ) : String := toString (roundHalfEven (x * 100)) ++ "%"

/-- `LinkingService._calculate_similarity`: the independently-weighted
signal list (English name ×1.5, Arabic name ×1.5, near-equal SKU ×2,
same-category bonus 0.3), averaged and capped at 1. -/
def calculate_similarity (a b : Product) : ℚ :=
  let scores : List ℚ :=
    (let na := normalize_name (orEmpty a.name)
     let nb := normalize_name (orEmpty b.name)
     if na ≠ "" ∧ nb ≠ "" then [seqSimStr na nb * 1.5] else []) ++
    (let na := normalize_name (orEmpty a.name_ar)
     let nb := normalize_name (orEmpty b.name_ar)
     if na ≠ "" ∧ nb ≠ "" then [seqSimStr na nb * 1.5] else []) ++
    (match a.sku, b.sku with
     | some sa, some sb =>
         if sa ≠ "" ∧ sb ≠ "" then
           (if seqSimStr sa sb > 0.8 then [seqSimStr sa sb * 2] else [])
         else []
     | _, _ => []) ++
    (match a.category, b.category with
     | some ca, some cb =>
         let na := normalize_name (orEmpty ca.name)
         let nb := normalize_name (orEmpty cb.name)
         if na ≠ "" ∧ nb ≠ "" then
           (if seqSimStr na nb > 0.8 then [(0.3 : ℚ)] else [])
         else []
     | _, _ => [])
  if scores = [] then 0 else min (scores.sum / (scores.length : ℚ)) 1

/-- Strategy 1 of `_multi_strategy_match`: both barcodes truthy and equal
after stripping. -/
def exactBarcodeMatch (a b : Product) : Bool :=
  match a.barcode, b.barcode with
  | some ba, some bb => !(ba == "") && !(bb == "") && (pyStrip ba == pyStrip bb)
  | _, _ => false

/-- Strategy 2: exact or near-equal SKU (stripped, lowercased). -/
def sku_signal (a b : Product) : List ℚ × List String :=
  match a.sku, b.sku with
  | some sa, some sb =>
      if sa ≠ "" ∧ sb ≠ "" then
        let sku_a := pyLower (pyStrip sa)
        let sku_b := pyLower (pyStrip sb)
        if sku_a = sku_b then ([0.95], ["Exact SKU match"])
        else if seqSimStr sku_a sku_b > 0.8 then
          ([seqSimStr sku_a sku_b * 0.8],
            ["Similar SKU (" ++ fmtPct (seqSimStr sku_a sku_b) ++ ")"])
        else ([], [])
      else ([], [])
  | _, _ => ([], [])

/-- Strategy 3: Jaccard similarity of name token sets above 0.5.  (The
Python reason lists up to three common tokens in the unspecified iteration
order of a `set`; the sample below uses `Finset.toList` order, which no
claim depends on.) -/
def token_signal (a b : Product) : List ℚ × List String :=
  let ta := tokenize_name (orEmpty a.name)
  let tb := tokenize_name (orEmpty b.name)
  if ta ≠ ∅ ∧ tb ≠ ∅ then
    if 0 < (ta ∪ tb).card then
      (let jac := (((ta ∩ tb).card : ℚ)) / (((ta ∪ tb).card : ℚ))
       if jac > 0.5 then
         ([jac * 0.85],
           ["Common words: " ++ String.intercalate ", "
             (((tokenize_list (orEmpty a.name)).filter (fun w => w ∈ tb)).take 3)])
       else ([], []))
    else ([], [])
  else ([], [])

/-- Strategy 4: sequence similarity of normalized names above 0.6. -/
def name_signal (a b : Product) : List ℚ × List String :=
  let na := normalize_name (orEmpty a.name)
  let nb := normalize_name (orEmpty b.name)
  if na ≠ "" ∧ nb ≠ "" then
    (let nsim := seqSimStr na nb
     if nsim > 0.6 then
       ([nsim * 0.8], ["Name similarity (" ++ fmtPct nsim ++ ")"])
     else ([], []))
  else ([], [])

/-- Strategy 5: same brand (case-insensitive) bonus 0.3, plus a partial
name containment bonus when the brands match. -/
def brand_signal (a b : Product) : List ℚ × List String :=
  let na := normalize_name (orEmpty a.name)
  let nb := normalize_name (orEmpty b.name)
  match extract_brand a, extract_brand b with
  | some bra, some brb =>
      if bra ≠ "" ∧ brb ≠ "" ∧ pyLower bra = pyLower brb then
        let base : List ℚ × List String := ([0.3], ["Same brand: " ++ bra])
        if na ≠ "" ∧ nb ≠ "" then
          (let psim := pMatch na nb
           if psim > 0.5 then
             (base.1 ++ [psim * 0.5],
               base.2 ++ ["Partial name match (" ++ fmtPct psim ++ ")"])
           else base)
        else base
      else ([], [])
  | _, _ => ([], [])

/-- Python `x or y or ""` over two optional strings. -/
def pyOrStr (x y : Option String) : String :=
  match x with
  | some s => if s = "" then orEmpty y else s
  | none => orEmpty y

/-- Strategy 6: sequence similarity of the normalized Arabic-or-primary
names above 0.6; the reason is only recorded when no earlier reason
mentions "Name similarity" (`"Name similarity" not in str(reasons)` — the
substring can only occur inside a single reason string, so the test is
element-wise). -/
def arabic_signal (a b : Product) (reasons0 : List String) :
    List ℚ × List String :=
  let naa := normalize_name (pyOrStr a.name_ar a.name)
  let nab := normalize_name (pyOrStr b.name_ar b.name)
  if naa ≠ "" ∧ nab ≠ "" then
    (let arsim := seqSimStr naa nab
     if arsim > 0.6 then
       ([arsim * 0.7],
         if reasons0.any (fun r => hasSub "Name similarity".data r.data) then []
         else ["Arabic name match (" ++ fmtPct arsim ++ ")"])
     else ([], []))
  else ([], [])

/-- `LinkingService._multi_strategy_match`: exact barcode short-circuits to
1.0; otherwise the contributing signals are averaged and a 0.05 bonus per
recorded reason is added, capped at 1.0. -/
def multi_strategy_match (a b : Product) : ℚ × List String :=
  if exactBarcodeMatch a b then (1, ["Exact barcode match"])
  else
    let s2 := sku_signal a b
    let s3 := token_signal a b
    let s4 := name_signal a b
    let s5 := brand_signal a b
    let reasons0 := s2.2 ++ s3.2 ++ s4.2 ++ s5.2
    let s6 := arabic_signal a b reasons0
    let scores := s2.1 ++ s3.1 ++ s4.1 ++ s5.1 ++ s6.1
    let reasons := reasons0 ++ s6.2
    if scores = [] then (0, [])
    else
      (min (scores.sum / (scores.length : ℚ) + (reasons.length : ℚ) * 0.05) 1,
        reasons)

/-! ### Bounds of the heuristic scores -/

lemma pMatch_bounds (a b : String) : 0 ≤ pMatch a b ∧ pMatch a b ≤ 1 := by
  rw [pMatch]
  set shorter := if a.length < b.length then a else b with hs
  set longer := if a.length < b.length then b else a with hl
  have hlen : shorter.length ≤ longer.length := by
    rw [hs, hl]
    by_cases hab : a.length < b.length
    · rw [if_pos hab, if_pos hab]
      exact le_of_lt hab
    · rw [if_neg hab, if_neg hab]
      exact le_of_not_lt hab
  by_cases hsub : hasSub shorter.data longer.data = true
  · rw [if_pos hsub]
    by_cases hzero : longer.length = 0
    · rw [hzero]
      norm_num
    · have hpos : (0 : ℚ) < (longer.length : ℚ) := by
        have : 0 < longer.length := Nat.pos_of_ne_zero hzero
        exact_mod_cast this
      constructor
      · positivity
      · rw [div_le_one hpos]
        exact_mod_cast hlen
  · rw [if_neg hsub]
    by_cases hws : ((splitWs shorter.data).map String.mk).toFinset ≠ ∅ ∧
        ((splitWs shorter.data).map String.mk).toFinset ⊆
          ((splitWs longer.data).map String.mk).toFinset
    · rw [if_pos hws]
      have hcard : ((splitWs shorter.data).map String.mk).toFinset.card ≤
          ((splitWs longer.data).map String.mk).toFinset.card :=
        Finset.card_le_card hws.2
      have hpos : 0 < ((splitWs longer.data).map String.mk).toFinset.card := by
        rcases Finset.nonempty_of_ne_empty hws.1 with ⟨w, hw⟩
        exact Finset.card_pos.mpr ⟨w, hws.2 hw⟩
      have hpos' : (0 : ℚ) <
          (((splitWs longer.data).map String.mk).toFinset.card : ℚ) := by
        exact_mod_cast hpos
      constructor
      · positivity
      · rw [div_le_one hpos']
        exact_mod_cast hcard
    · rw [if_neg hws]
      norm_num

lemma agg2_bounds (X : ℚ) (hX : 0 ≤ X) : 0 ≤ min X 1 ∧ min X 1 ≤ 1 :=
  ⟨le_min hX (by norm_num), min_le_right _ _⟩

lemma one_le_of_min_eq_one {X : ℚ} (h : min X 1 = 1) : 1 ≤ X := by
  rcases le_total X 1 with hle | hle
  · rw [min_eq_left hle] at h
    exact le_of_eq h.symm
  · exact hle

lemma sku_signal_cases (a b : Product) :
    sku_signal a b = ([], []) ∨
    ((∃ sa sb, a.sku = some sa ∧ b.sku = some sb ∧ sa ≠ "" ∧ sb ≠ "" ∧
        pyLower (pyStrip sa) = pyLower (pyStrip sb)) ∧
      sku_signal a b = ([0.95], ["Exact SKU match"])) ∨
    (∃ v r, sku_signal a b = ([v], [r]) ∧ 0 ≤ v ∧ v ≤ 0.8) := by
  cases ha : a.sku with
  | none =>
    left
    simp [sku_signal, ha]
  | some sa =>
    cases hb : b.sku with
    | none =>
      left
      simp [sku_signal, ha, hb]
    | some sb =>
      simp only [sku_signal, ha, hb]
      by_cases htr : sa ≠ "" ∧ sb ≠ ""
      · rw [if_pos htr]
        by_cases heq : pyLower (pyStrip sa) = pyLower (pyStrip sb)
        · rw [if_pos heq]
          exact Or.inr (Or.inl ⟨⟨sa, sb, rfl, rfl, htr.1, htr.2, heq⟩, rfl⟩)
        · rw [if_neg heq]
          by_cases hsim : seqSimStr (pyLower (pyStrip sa)) (pyLower (pyStrip sb))
              > 0.8
          · rw [if_pos hsim]
            refine Or.inr (Or.inr ⟨_, _, rfl, ?_, ?_⟩)
            · have h := (seqSimStr_bounds (pyLower (pyStrip sa))
                (pyLower (pyStrip sb))).1
              nlinarith
            · have h := (seqSimStr_bounds (pyLower (pyStrip sa))
                (pyLower (pyStrip sb))).2
              nlinarith
          · rw [if_neg hsim]
            left
            rfl
      · rw [if_neg htr]
        left
        rfl

lemma token_signal_cases (a b : Product) :
    token_signal a b = ([], []) ∨
    ∃ v r, token_signal a b = ([v], [r]) ∧ 0 ≤ v ∧ v ≤ 0.85 := by
  simp only [token_signal]
  by_cases h1 : tokenize_name (orEmpty a.name) ≠ ∅ ∧
      tokenize_name (orEmpty b.name) ≠ ∅
  · rw [if_pos h1]
    by_cases h2 : 0 < (tokenize_name (orEmpty a.name) ∪
        tokenize_name (orEmpty b.name)).card
    · rw [if_pos h2]
      by_cases h3 : (((tokenize_name (orEmpty a.name) ∩
            tokenize_name (orEmpty b.name)).card : ℚ)) /
          (((tokenize_name (orEmpty a.name) ∪
            tokenize_name (orEmpty b.name)).card : ℚ)) > 0.5
      · rw [if_pos h3]
        refine Or.inr ⟨_, _, rfl, ?_, ?_⟩
        · have hj : (0 : ℚ) ≤ (((tokenize_name (orEmpty a.name) ∩
              tokenize_name (orEmpty b.name)).card : ℚ)) /
              (((tokenize_name (orEmpty a.name) ∪
                tokenize_name (orEmpty b.name)).card : ℚ)) := by positivity
          nlinarith
        · have hc : (tokenize_name (orEmpty a.name) ∩
              tokenize_name (orEmpty b.name)).card ≤
              (tokenize_name (orEmpty a.name) ∪
                tokenize_name (orEmpty b.name)).card :=
            Finset.card_le_card
              (Finset.inter_subset_left.trans Finset.subset_union_left)
          have hpos : (0 : ℚ) < (((tokenize_name (orEmpty a.name) ∪
              tokenize_name (orEmpty b.name)).card : ℚ)) := by exact_mod_cast h2
          have hj : (((tokenize_name (orEmpty a.name) ∩
              tokenize_name (orEmpty b.name)).card : ℚ)) /
              (((tokenize_name (orEmpty a.name) ∪
                tokenize_name (orEmpty b.name)).card : ℚ)) ≤ 1 := by
            rw [div_le_one hpos]
            exact_mod_cast hc
          nlinarith
      · rw [if_neg h3]
        left
        rfl
    · rw [if_neg h2]
      left
      rfl
  · rw [if_neg h1]
    left
    rfl

lemma name_signal_cases (a b : Product) :
    name_signal a b = ([], []) ∨
    ∃ v r, name_signal a b = ([v], [r]) ∧ 0 ≤ v ∧ v ≤ 0.8 := by
  simp only [name_signal]
  by_cases h1 : normalize_name (orEmpty a.name) ≠ "" ∧
      normalize_name (orEmpty b.name) ≠ ""
  · rw [if_pos h1]
    by_cases h2 : seqSimStr (normalize_name (orEmpty a.name))
        (normalize_name (orEmpty b.name)) > 0.6
    · rw [if_pos h2]
      refine Or.inr ⟨_, _, rfl, ?_, ?_⟩
      · have h := (seqSimStr_bounds (normalize_name (orEmpty a.name))
          (normalize_name (orEmpty b.name))).1
        nlinarith
      · have h := (seqSimStr_bounds (normalize_name (orEmpty a.name))
          (normalize_name (orEmpty b.name))).2
        nlinarith
    · rw [if_neg h2]
      left
      rfl
  · rw [if_neg h1]
    left
    rfl

lemma brand_signal_cases (a b : Product) :
    brand_signal a b = ([], []) ∨
    (∃ r, brand_signal a b = ([0.3], [r])) ∨
    (∃ v r1 r2, brand_signal a b = ([0.3, v], [r1, r2]) ∧ 0 ≤ v ∧ v ≤ 0.5) := by
  cases ha : extract_brand a with
  | none =>
    left
    simp [brand_signal, ha]
  | some bra =>
    cases hb : extract_brand b with
    | none =>
      left
      simp [brand_signal, ha, hb]
    | some brb =>
      simp only [brand_signal, ha, hb]
      by_cases htr : bra ≠ "" ∧ brb ≠ "" ∧ pyLower bra = pyLower brb
      · rw [if_pos htr]
        by_cases hnm : normalize_name (orEmpty a.name) ≠ "" ∧
            normalize_name (orEmpty b.name) ≠ ""
        · rw [if_pos hnm]
          by_cases hp : pMatch (normalize_name (orEmpty a.name))
              (normalize_name (orEmpty b.name)) > 0.5
          · rw [if_pos hp]
            refine Or.inr (Or.inr ⟨_, _, _, rfl, ?_, ?_⟩)
            · have h := (pMatch_bounds (normalize_name (orEmpty a.name))
                (normalize_name (orEmpty b.name))).1
              nlinarith
            · have h := (pMatch_bounds (normalize_name (orEmpty a.name))
                (normalize_name (orEmpty b.name))).2
              nlinarith
          · rw [if_neg hp]
            exact Or.inr (Or.inl ⟨_, rfl⟩)
        · rw [if_neg hnm]
          exact Or.inr (Or.inl ⟨_, rfl⟩)
      · rw [if_neg htr]
        left
        rfl

lemma arabic_signal_cases (a b : Product) (reasons0 : List String) :
    arabic_signal a b reasons0 = ([], []) ∨
    ∃ v rs, arabic_signal a b reasons0 = ([v], rs) ∧ 0 ≤ v ∧ v ≤ 0.7 ∧
      rs.length ≤ 1 := by
  simp only [arabic_signal]
  by_cases h1 : normalize_name (pyOrStr a.name_ar a.name) ≠ "" ∧
      normalize_name (pyOrStr b.name_ar b.name) ≠ ""
  · rw [if_pos h1]
    by_cases h2 : seqSimStr (normalize_name (pyOrStr a.name_ar a.name))
        (normalize_name (pyOrStr b.name_ar b.name)) > 0.6
    · rw [if_pos h2]
      refine Or.inr ⟨_, _, rfl, ?_, ?_, ?_⟩
      · have h := (seqSimStr_bounds (normalize_name (pyOrStr a.name_ar a.name))
          (normalize_name (pyOrStr b.name_ar b.name))).1
        nlinarith
      · have h := (seqSimStr_bounds (normalize_name (pyOrStr a.name_ar a.name))
          (normalize_name (pyOrStr b.name_ar b.name))).2
        nlinarith
      · by_cases hr : reasons0.any (fun r => hasSub "Name similarity".data r.data)
            = true
        · rw [if_pos hr]
          simp
        · rw [if_neg hr]
          simp
    · rw [if_neg h2]
      left
      rfl
  · rw [if_neg h1]
    left
    rfl

lemma mem_ite_list {c : Prop} [Decidable c] {l : List ℚ} {x : ℚ}
    (h : x ∈ (if c then l else [])) : x ∈ l := by
  by_cases hc : c
  · rwa [if_pos hc] at h
  · rw [if_neg hc] at h
    cases h

lemma agg_bounds (scores : List ℚ) (h : ∀ x ∈ scores, 0 ≤ x) :
    0 ≤ (if scores = [] then (0 : ℚ)
          else min (scores.sum / (scores.length : ℚ)) 1) ∧
    (if scores = [] then (0 : ℚ)
      else min (scores.sum / (scores.length : ℚ)) 1) ≤ 1 := by
  by_cases hs : scores = []
  · rw [if_pos hs]
    norm_num
  · rw [if_neg hs]
    have hlen : (0 : ℚ) < (scores.length : ℚ) := by
      have : 0 < scores.length := List.length_pos.mpr hs
      exact_mod_cast this
    have hsum : 0 ≤ scores.sum := List.sum_nonneg h
    exact ⟨le_min (div_nonneg hsum (le_of_lt hlen)) (by norm_num),
      min_le_right _ _⟩

lemma calc_sim_bounds (a b : Product) :
    0 ≤ calculate_similarity a b ∧ calculate_similarity a b ≤ 1 := by
  simp only [calculate_similarity]
  apply agg_bounds
  intro x hx
  simp only [List.mem_append] at hx
  rcases hx with ((hx | hx) | hx) | hx
  · have := List.mem_singleton.mp (mem_ite_list hx)
    subst this
    have := (seqSimStr_bounds (normalize_name (orEmpty a.name))
      (normalize_name (orEmpty b.name))).1
    nlinarith
  · have := List.mem_singleton.mp (mem_ite_list hx)
    subst this
    have := (seqSimStr_bounds (normalize_name (orEmpty a.name_ar))
      (normalize_name (orEmpty b.name_ar))).1
    nlinarith
  · cases ha : a.sku with
    | none =>
      simp [ha] at hx
    | some sa =>
      cases hb : b.sku with
      | none =>
        simp [ha, hb] at hx
      | some sb =>
        simp only [ha, hb] at hx
        have hmem := mem_ite_list hx
        have := List.mem_singleton.mp (mem_ite_list hmem)
        subst this
        have := (seqSimStr_bounds sa sb).1
        nlinarith
  · cases ha : a.category with
    | none =>
      simp [ha] at hx
    | some ca =>
      cases hb : b.category with
      | none =>
        simp [ha, hb] at hx
      | some cb =>
        simp only [ha, hb] at hx
        have hmem := mem_ite_list hx
        have := List.mem_singleton.mp (mem_ite_list hmem)
        subst this
        norm_num

set_option maxHeartbeats 2000000 in
/-- **C1 (amended)**: both heuristic scoring functions stay within
`[0, 1]`; `_multi_strategy_match` returns exactly 1.0 only for a pair with
truthy, stripped-equal barcodes or truthy SKUs equal after strip+lower —
but `_calculate_similarity` (which never looks at barcodes) can reach 1.0
from name similarity alone, since its ×1.5/×2-weighted mean is capped at
1.0 (see the counterexample). -/
theorem heuristic_score_spec (a b : Product) :
    (0 ≤ calculate_similarity a b ∧ calculate_similarity a b ≤ 1) ∧
    (0 ≤ (multi_strategy_match a b).1 ∧ (multi_strategy_match a b).1 ≤ 1) ∧
    ((multi_strategy_match a b).1 = 1 →
      exactBarcodeMatch a b = true ∨
      ∃ sa sb, a.sku = some sa ∧ b.sku = some sb ∧ sa ≠ "" ∧ sb ≠ "" ∧
        pyLower (pyStrip sa) = pyLower (pyStrip sb)) := by
  refine ⟨calc_sim_bounds a b, ?_⟩
  by_cases hbar : exactBarcodeMatch a b = true
  · have hone : multi_strategy_match a b = (1, ["Exact barcode match"]) := by
      unfold multi_strategy_match
      rw [if_pos hbar]
    rw [hone]
    exact ⟨⟨by norm_num, by norm_num⟩, fun _ => Or.inl hbar⟩
  · rcases arabic_signal_cases a b ((sku_signal a b).2 ++ (token_signal a b).2
        ++ (name_signal a b).2 ++ (brand_signal a b).2) with
      h6 | ⟨v6, rs6, h6, h6l, h6u, h6len⟩ <;>
    rcases sku_signal_cases a b with h2 | ⟨hsku, h2⟩ | ⟨v2, r2, h2, h2l, h2u⟩ <;>
    rcases token_signal_cases a b with h3 | ⟨v3, r3, h3, h3l, h3u⟩ <;>
    rcases name_signal_cases a b with h4 | ⟨v4, r4, h4, h4l, h4u⟩ <;>
    rcases brand_signal_cases a b with
      h5 | ⟨r5, h5⟩ | ⟨v5, r5a, r5b, h5, h5l, h5u⟩ <;>
    (simp only [multi_strategy_match]
     rw [if_neg hbar, h6]
     simp only [h2, h3, h4, h5, List.cons_append, List.nil_append,
       List.append_nil, List.sum_cons, List.sum_nil, List.length_cons,
       List.length_nil, List.length_append]
     first
     | rw [if_neg (List.cons_ne_nil _ _)]
     | rw [if_pos rfl]
     | rw [if_pos True.intro]
     dsimp only
     refine ⟨⟨?_, ?_⟩, ?_⟩
     · first
       | exact le_refl 0
       | (refine le_min ?_ (by norm_num)
          push_cast
          linarith)
     · first
       | exact min_le_right _ _
       | norm_num
     · intro h1
       first
       | exact Or.inr hsku
       | (exfalso
          norm_num at h1
          done)
       | (exfalso
          have hX := one_le_of_min_eq_one h1
          have h6c : ((rs6.length : ℚ)) ≤ 1 := by exact_mod_cast h6len
          push_cast at hX
          linarith)
       | (exfalso
          have hX := one_le_of_min_eq_one h1
          push_cast at hX
          linarith))

/-- Two products that agree on their (English) name only: no barcode, no
SKU on either side. -/
def cexMilkA : Product :=
  { id := 300
    source_app := "app_a"
    name := some "milk" }

def cexMilkB : Product :=
  { id := 301
    source_app := "app_b"
    name := some "milk" }

/-- **C1 counterexample**: `_calculate_similarity` returns exactly 1.0 for
two products that share only an identical name and have no barcode and no
SKU at all — the name score 1.0×1.5 is averaged (over the single entry)
and capped `min(·, 1.0)`, so perfect-score pairs need not be barcode or
SKU matches as the claim states. -/
theorem calc_similarity_counterexample :
    calculate_similarity cexMilkA cexMilkB = 1 ∧
    cexMilkA.barcode = none ∧ cexMilkB.barcode = none ∧
    cexMilkA.sku = none ∧ cexMilkB.sku = none := by
  refine ⟨?_, rfl, rfl, rfl, rfl⟩
  have h1 : normalize_name (orEmpty cexMilkA.name) = "milk" := by decide
  have h2 : normalize_name (orEmpty cexMilkB.name) = "milk" := by decide
  have h3 : normalize_name (orEmpty cexMilkA.name_ar) = "" := by decide
  have h4 : normalize_name (orEmpty cexMilkB.name_ar) = "" := by decide
  have hs : seqSimStr "milk" "milk" = 1 := by
    have hm : matchTotal "milk".data "milk".data = 4 := by decide
    simp only [seqSimStr, seqSim, hm]
    norm_num
  have hsku1 : cexMilkA.sku = none := rfl
  have hsku2 : cexMilkB.sku = none := rfl
  have hcat1 : cexMilkA.category = none := rfl
  have hcat2 : cexMilkB.category = none := rfl
  have hc1 : (("milk" : String) ≠ "" ∧ ("milk" : String) ≠ "") := by decide
  have hc2 : ¬((("" : String)) ≠ "" ∧ (("" : String)) ≠ "") := by decide
  simp only [calculate_similarity, hsku1, hsku2, hcat1, hcat2]
  rw [h1, h2, h3, h4, if_pos hc1, if_neg hc2, hs]
  simp only [List.append_nil, List.cons_ne_nil, List.sum_cons, List.sum_nil,
    List.length_cons, List.length_nil]
  norm_num [min_def]

/-- An exact-barcode pair used to instantiate the heuristic-score theorem
at a concrete input. -/
def wbA : Product :=
  { id := 400
    source_app := "app_a"
    barcode := some "6221007000013" }

def wbB : Product :=
  { id := 401
    source_app := "app_b"
    barcode := some " 6221007000013 " }

theorem heuristic_score_witness :
    (0 ≤ calculate_similarity wbA wbB ∧ calculate_similarity wbA wbB ≤ 1) ∧
    (0 ≤ (multi_strategy_match wbA wbB).1 ∧
      (multi_strategy_match wbA wbB).1 ≤ 1) ∧
    (exactBarcodeMatch wbA wbB = true ∨
      ∃ sa sb, wbA.sku = some sa ∧ wbB.sku = some sb ∧ sa ≠ "" ∧ sb ≠ "" ∧
        pyLower (pyStrip sa) = pyLower (pyStrip sb)) :=
  ⟨(heuristic_score_spec wbA wbB).1,
   (heuristic_score_spec wbA wbB).2.1,
   (heuristic_score_spec wbA wbB).2.2 rfl⟩

end Scrab
